import Mathlib

/-!
# Verification of GPAClib's circuit algebra

A shallow embedding of the GPAC circuit class of `src/GPAC.hpp` (GPAClib),
over ℚ in place of the C++ `double` (`T`), with `std::map` modelled as an
association list using ordered insertion and process exit modelled as
`Except`.  The process-wide static fresh-name counter `new_gate_id` is
threaded through the circuit state.
-/

namespace GPAClib

/-- The four gate kinds of `gate.hpp` (`ConstantGate`, `AddGate`,
`ProductGate`, `IntGate`), flattened to a tagged variant.  Binary gates
store the names of their two inputs. -/
inductive Gate where
  | Constant (c : ℚ)
  | Add (x y : String)
  | Prod (x y : String)
  | Int (x y : String)
deriving Repr, DecidableEq

/-- `std::map<std::string, _>` modelled as an association list; insertion
keeps keys sorted when the input is sorted, matching the map's iteration
order. -/
abbrev SMap (α : Type) := List (String × α)

/-- Lookup (`map::at` / `map::count`): first entry with the given key. -/
def mapFind? {α : Type} : SMap α → String → Option α
  | [], _ => none
  | (k, v) :: rest, key => if key = k then some v else mapFind? rest key

/-- Lexicographic order on strings by character code, the order used by
`std::map<std::string, _>` and by the source's string comparisons. -/
def charListLt : List Char → List Char → Bool
  | _, [] => false
  | [], _ :: _ => true
  | a :: as, b :: bs =>
    if a.toNat < b.toNat then true
    else if b.toNat < a.toNat then false
    else charListLt as bs

/-- `std::string` `operator<`. -/
def strLt (x y : String) : Bool := charListLt x.data y.data

/-- `map::operator[] = v` / insertion: overwrite the key if present,
otherwise insert at the sorted position. -/
def mapInsert {α : Type} : SMap α → String → α → SMap α
  | [], key, v => [(key, v)]
  | (k, w) :: rest, key, v =>
    if key = k then (key, v) :: rest
    else if strLt key k then (key, v) :: (k, w) :: rest
    else (k, w) :: mapInsert rest key v

/-- `map::erase`. -/
def mapErase {α : Type} (m : SMap α) (key : String) : SMap α :=
  m.filter (fun p => !(p.1 = key : Bool))

/-- `map::count(key) != 0`. -/
def mapContains {α : Type} (m : SMap α) (key : String) : Bool :=
  (mapFind? m key).isSome

/-- Character for a decimal digit. -/
def digitChar (d : ℕ) : Char := Char.ofNat (48 + d)

/-- Decimal digit list of a natural number, most significant first. -/
def natDigits (n : ℕ) : List Char :=
  if h : n < 10 then [digitChar n]
  else natDigits (n / 10) ++ [digitChar (n % 10)]
decreasing_by exact Nat.div_lt_self (by omega) (by omega)

/-- Decimal string of a natural number. -/
def natRepr (n : ℕ) : String := ⟨natDigits n⟩

/-- Numeric value of a decimal digit string
(`boost::lexical_cast<unsigned>`). -/
def decodeDigits (l : List Char) : ℕ :=
  l.foldl (fun a c => 10 * a + (c.toNat - 48)) 0

/-- Error cases; the source prints a `CircuitErrorMessage` and calls
`exit(EXIT_FAILURE)`, modelled as `Except.error`. -/
inductive CErr where
  | nameEmpty
  | nameUnderscore
  | nameT
  | intConstantSecondInput (g : String)
  | inputMissing (g : String)
  | intNotNormalized (g : String)
  | outputUnset
  | outputInvalid
  | noInitValue (g : String)
  | cannotNormalize (g : String)
  | computeValueFailure
  | derivateNotNormalized
  | noOutput
  | missingGate (g : String)
  | outOfFuel
deriving Repr, DecidableEq

/-- The `GPAC<T>` class state: circuit name, gate map and output gate
(`Circuit` base), the `validation`, `block` and `finalized` flags, the
numerical `values` table, the cached `int_gates` list, and the fresh-name
counter `new_gate_id` (a static global in the source, threaded here). -/
structure GPAC where
  circuit_name : String
  gates : SMap Gate
  output_gate : String
  validation : Bool
  block : Bool
  finalized : Bool
  values : SMap ℚ
  int_gates : List String
  new_gate_id : ℕ
deriving Repr, DecidableEq

/-- `GPAC(name, validation_, block_)` constructor (empty circuit); `id`
seeds the threaded global counter. -/
def mkGPAC (name : String) (validation_ block_ : Bool) (id : ℕ) : GPAC :=
  { circuit_name := name, gates := [], output_gate := "", validation := validation_,
    block := block_, finalized := false, values := [], int_gates := [], new_gate_id := id }

/-- `Circuit::setOutput` — note that it does not touch `finalized`. -/
def setOutput (c : GPAC) (out : String) : GPAC := {c with output_gate := out}

/-- `Circuit::rename`. -/
def renameCircuit (c : GPAC) (name : String) : GPAC := {c with circuit_name := name}

/-- `Circuit::size`. -/
def size (c : GPAC) : ℕ := c.gates.length

/-- `has(gate_name)`. -/
def hasGate (c : GPAC) (gate_name : String) : Bool := mapContains c.gates gate_name

/-- `isAddGate` (false where the source's `gates.at` would throw). -/
def isAddGate (c : GPAC) (gate_name : String) : Bool :=
  match mapFind? c.gates gate_name with
  | some (Gate.Add _ _) => true
  | _ => false

/-- `isProductGate`. -/
def isProductGate (c : GPAC) (gate_name : String) : Bool :=
  match mapFind? c.gates gate_name with
  | some (Gate.Prod _ _) => true
  | _ => false

/-- `isIntGate`. -/
def isIntGate (c : GPAC) (gate_name : String) : Bool :=
  match mapFind? c.gates gate_name with
  | some (Gate.Int _ _) => true
  | _ => false

/-- `isConstantGate`. -/
def isConstantGate (c : GPAC) (gate_name : String) : Bool :=
  match mapFind? c.gates gate_name with
  | some (Gate.Constant _) => true
  | _ => false

/-- `isBinaryGate`. -/
def isBinaryGate (c : GPAC) (gate_name : String) : Bool :=
  match mapFind? c.gates gate_name with
  | some (Gate.Add _ _) | some (Gate.Prod _ _) | some (Gate.Int _ _) => true
  | _ => false

/-- `asBinaryGate(g)->X(), ->Y()` — the two inputs of a binary gate. -/
def binInputs (c : GPAC) (gate_name : String) : Option (String × String) :=
  match mapFind? c.gates gate_name with
  | some (Gate.Add x y) => some (x, y)
  | some (Gate.Prod x y) => some (x, y)
  | some (Gate.Int x y) => some (x, y)
  | _ => none

/-- `isCombinationConstantGates`: the gate's upstream cone contains only
Constant/Add/Prod gates (no `t`, no Int).  The source recurses without
bound (crashing on a cyclic algebraic cone); fuel `c.gates.length + 1`
dominates any acyclic chain, and exhaustion returns `false`.  A missing
gate (`gates.at` throw in the source) also gives `false`. -/
def isCombinationConstantGates (c : GPAC) : ℕ → String → Bool
  | 0, _ => false
  | fuel + 1, gate_name =>
    if gate_name = "t" then false
    else match mapFind? c.gates gate_name with
      | some (Gate.Int _ _) => false
      | some (Gate.Constant _) => true
      | some (Gate.Add x y) =>
        isCombinationConstantGates c fuel x && isCombinationConstantGates c fuel y
      | some (Gate.Prod x y) =>
        isCombinationConstantGates c fuel x && isCombinationConstantGates c fuel y
      | none => false

/-- `valueCombinationConstantGates` (precondition: the gate is a
combination of constant gates; other cases give 0). -/
def valueCombinationConstantGates (c : GPAC) : ℕ → String → ℚ
  | 0, _ => 0
  | fuel + 1, gate_name =>
    match mapFind? c.gates gate_name with
    | some (Gate.Constant v) => v
    | some (Gate.Add x y) =>
      valueCombinationConstantGates c fuel x + valueCombinationConstantGates c fuel y
    | some (Gate.Prod x y) =>
      valueCombinationConstantGates c fuel x * valueCombinationConstantGates c fuel y
    | _ => 0

/-- `getNewGateName`: `"_" + lexical_cast(++new_gate_id)`. -/
def getNewGateName (c : GPAC) : GPAC × String :=
  ({c with new_gate_id := c.new_gate_id + 1}, "_" ++ natRepr (c.new_gate_id + 1))

/-- `ensureNewGateIdLargeEnough`: if `name` ends in `_<n>`, bump the
counter to at least `n`. -/
def ensureNewGateIdLargeEnough (c : GPAC) (name : String) : GPAC :=
  let rev := name.data.reverse
  let ds := rev.takeWhile Char.isDigit
  let rest := rev.drop ds.length
  match ds, rest with
  | [], _ => c
  | _ :: _, [] => c
  | _ :: _, ch :: _ =>
    if ch = '_' then
      let id := decodeDigits ds.reverse
      if id > c.new_gate_id then {c with new_gate_id := id} else c
    else c

/-- `validateGateName` (name rejection rules). -/
def validateGateName (gate_name : String) (forbid_underscore : Bool) : Except CErr Unit :=
  if gate_name.length = 0 then .error .nameEmpty
  else if (match gate_name.data with | [] => false | ch :: _ => ch = '_') && forbid_underscore then
    .error .nameUnderscore
  else if gate_name = "t" then .error .nameT
  else .ok ()

/-- Common body of the four `add*Gate` methods after validation: clear
`finalized`, generate a fresh name when the given one is empty, overwrite
or insert the gate, and bump the counter from the final name. -/
def addGateNV (c : GPAC) (gate_name : String) (g : Gate) : GPAC × String :=
  let c1 := {c with finalized := false}
  let (c2, n) := if gate_name = "" then getNewGateName c1 else (c1, gate_name)
  let c3 := {c2 with gates := mapInsert c2.gates n g}
  (ensureNewGateIdLargeEnough c3 n, n)

/-- `addAddGate(gate_name, x, y, validate)`. -/
def addAddGate (c : GPAC) (gate_name x y : String) (validate : Bool) :
    Except CErr (GPAC × String) :=
  if gate_name ≠ "" ∧ c.validation ∧ validate then
    match validateGateName gate_name true with
    | .error e => .error e
    | .ok _ => .ok (addGateNV c gate_name (Gate.Add x y))
  else .ok (addGateNV c gate_name (Gate.Add x y))

/-- `addProductGate(gate_name, x, y, validate)`. -/
def addProductGate (c : GPAC) (gate_name x y : String) (validate : Bool) :
    Except CErr (GPAC × String) :=
  if gate_name ≠ "" ∧ c.validation ∧ validate then
    match validateGateName gate_name true with
    | .error e => .error e
    | .ok _ => .ok (addGateNV c gate_name (Gate.Prod x y))
  else .ok (addGateNV c gate_name (Gate.Prod x y))

/-- `addIntGate(gate_name, x, y, validate)`; when validating, a second
input that is an existing Constant gate is rejected. -/
def addIntGate (c : GPAC) (gate_name x y : String) (validate : Bool) :
    Except CErr (GPAC × String) :=
  if gate_name ≠ "" ∧ c.validation ∧ validate then
    match validateGateName gate_name true with
    | .error e => .error e
    | .ok _ =>
      if c.validation ∧ validate ∧ isConstantGate c y then
        .error (.intConstantSecondInput gate_name)
      else .ok (addGateNV c gate_name (Gate.Int x y))
  else
    if c.validation ∧ validate ∧ isConstantGate c y then
      .error (.intConstantSecondInput gate_name)
    else .ok (addGateNV c gate_name (Gate.Int x y))

/-- `addConstantGate(gate_name, value, validate)`. -/
def addConstantGate (c : GPAC) (gate_name : String) (value : ℚ) (validate : Bool) :
    Except CErr (GPAC × String) :=
  if gate_name ≠ "" ∧ c.validation ∧ validate then
    match validateGateName gate_name true with
    | .error e => .error e
    | .ok _ => .ok (addGateNV c gate_name (Gate.Constant value))
  else .ok (addGateNV c gate_name (Gate.Constant value))

/-- `eraseGate` — deletes the gate; `finalized` is left untouched. -/
def eraseGate (c : GPAC) (gate_name : String) : GPAC :=
  {c with gates := mapErase c.gates gate_name}

/-- Input renaming on one gate (`BinaryGate::X()/Y()` assignment). -/
def renameInputsGate (g : Gate) (gate_name new_name : String) : Gate :=
  match g with
  | Gate.Constant v => Gate.Constant v
  | Gate.Add x y =>
    Gate.Add (if x = gate_name then new_name else x) (if y = gate_name then new_name else y)
  | Gate.Prod x y =>
    Gate.Prod (if x = gate_name then new_name else x) (if y = gate_name then new_name else y)
  | Gate.Int x y =>
    Gate.Int (if x = gate_name then new_name else x) (if y = gate_name then new_name else y)

/-- `renameInputs` — rewrites all binary-gate inputs equal to `gate_name`;
`finalized` is left untouched. -/
def renameInputs (c : GPAC) (gate_name new_name : String) : GPAC :=
  {c with gates := c.gates.map (fun p => (p.1, renameInputsGate p.2 gate_name new_name))}

/-- `renameGate` — moves the gate and its value entry and fixes up the
output name; `finalized` is left untouched.  (On a missing source gate the
C++ moves a null entry; that case is modelled as a plain erase.) -/
def renameGate (c : GPAC) (gate_name new_name : String) : GPAC :=
  let c1 :=
    match mapFind? c.gates gate_name with
    | some g => {c with gates := mapErase (mapInsert c.gates new_name g) gate_name}
    | none => {c with gates := mapErase c.gates gate_name}
  let c2 :=
    match mapFind? c1.values gate_name with
    | some v => {c1 with values := mapInsert (mapErase c1.values gate_name) new_name v}
    | none => c1
  if gate_name = c2.output_gate then {c2 with output_gate := new_name} else c2

/-- `setInitValue` — only integration gates accept a value (otherwise an
error message is printed and nothing happens); `finalized` is cleared only
when the stored value (0 by `operator[]` default construction when absent)
differs from the new one. -/
def setInitValue (c : GPAC) (gate_name : String) (value : ℚ) : GPAC :=
  if ¬ isIntGate c gate_name then c
  else
    let old := (mapFind? c.values gate_name).getD 0
    { c with finalized := if old ≠ value then false else c.finalized,
             values := mapInsert c.values gate_name value }

/-- `importValues` — merge value entries for gates present in the circuit. -/
def importValues (c : GPAC) (v : SMap ℚ) : GPAC :=
  v.foldl (fun acc p =>
    if hasGate acc p.1 then {acc with values := mapInsert acc.values p.1 p.2} else acc) c

/-- One step of `copyInto(circuit, false)`: re-add the named gate of the
source and import its initial value if it is an integration gate.  All
call sites of `copyInto` inside the operations modelled here pass
`validate = false`, so no name validation occurs. -/
def copyIntoStep (src : GPAC) (c : GPAC) (g : String) : GPAC :=
  let c' :=
    match mapFind? src.gates g with
    | some gate => (addGateNV c g gate).1
    | none => c
  if isIntGate src g && mapContains src.values g then
    setInitValue c' g ((mapFind? src.values g).getD 0)
  else c'

/-- `copyInto(circuit, false)`: copy all gates (in map order) of the
source into the current circuit along with integration-gate values. -/
def copyInto (c src : GPAC) : GPAC :=
  src.gates.foldl (fun acc p => copyIntoStep src acc p.1) c

/-- The copy constructor `GPAC(const GPAC&)`: default-construct, copy the
gates, then set the name (source name plus `"_"` for a named non-block
source, the source name for a block, empty otherwise), output, validation
and block flags; `finalized` is always false.  The threaded counter starts
from the source's (modelling the shared static counter). -/
def copyCircuit (c : GPAC) : GPAC :=
  let base : GPAC :=
    { circuit_name := "", gates := [], output_gate := "", validation := c.validation,
      block := c.block, finalized := false, values := [], int_gates := [],
      new_gate_id := c.new_gate_id }
  let r := copyInto base c
  let r :=
    if ¬ c.block ∧ c.circuit_name ≠ "" then {r with circuit_name := c.circuit_name ++ "_"}
    else if c.block then {r with circuit_name := c.circuit_name}
    else r
  { r with output_gate := c.output_gate, validation := c.validation,
           finalized := false, block := c.block }

/-- `operator=`: clear `gates`, then proceed as the copy constructor —
but the target's `values` table and `int_gates` cache are *not* cleared,
and the target's name survives when neither name branch fires.  The
shared static counter is modelled as the max of the two threaded ones. -/
def assignCircuit (tgt src : GPAC) : GPAC :=
  let base := {tgt with gates := ([] : SMap Gate),
                        new_gate_id := max tgt.new_gate_id src.new_gate_id}
  let r := copyInto base src
  let r :=
    if ¬ src.block ∧ src.circuit_name ≠ "" then {r with circuit_name := src.circuit_name ++ "_"}
    else if src.block then {r with circuit_name := src.circuit_name}
    else r
  { r with output_gate := src.output_gate, validation := src.validation,
           finalized := false, block := src.block }

/-- Check `isIntGate(g) && asIntGate(g)->Y() == "t"` (an
already-normalized integration gate). -/
def isNormalizedIntGate (c : GPAC) (g : String) : Bool :=
  match mapFind? c.gates g with
  | some (Gate.Int _ t1) => t1 == "t"
  | _ => false

/-- `CompareIntGate::operator()` — the strict-weak-order used by the
priority queue of problematic integration gates (Case-1 gates first, then
product, then addition; ties `x > y`).  Non-Int arguments never occur on
the queue. -/
def compareIntGate (c : GPAC) (x y : String) : Bool :=
  match mapFind? c.gates x, mapFind? c.gates y with
  | some (Gate.Int _ y1), some (Gate.Int _ y2) =>
    if isNormalizedIntGate c y1 then false
    else if isNormalizedIntGate c y2 then true
    else if isProductGate c y1 then false
    else if isProductGate c y2 then true
    else if isAddGate c y1 then false
    else if isAddGate c y2 then true
    else strLt y x
  | _, _ => false

/-- Pop a maximal element (w.r.t. `compareIntGate`) from the work list,
modelling `priority_queue::top/pop`. -/
def popMax (c : GPAC) : List String → Option (String × List String)
  | [] => none
  | q :: rest =>
    let m := rest.foldl (fun best cand => if compareIntGate c best cand then cand else best) q
    some (m, (q :: rest).erase m)

/-- One iteration of `normalize`'s work-list loop on the popped
integration gate `gate_name = int W d(Y)`: Case 1 (`Y = int U dt`)
rewrites in place to `int (U·W) dt`; Case 2 (`Y = U·V`) either absorbs a
constant factor (2a) or splits into two integration gates (2b); Case 3
(`Y = U+V`) drops a constant summand (3a) or splits (3b).  Returns the
updated circuit and the names pushed back onto the queue. -/
def normalizeStep (guess : Bool) (c : GPAC) (gate_name : String) :
    Except CErr (GPAC × List String) :=
  let ccgFuel := c.gates.length + 1
  match mapFind? c.gates gate_name with
  | some (Gate.Int gx gy) =>
    match mapFind? c.gates gy with
    | some (Gate.Int u yt) =>
      if yt = "t" then
        -- Case 1: fresh product gate (u, gx); the gate keeps its name.
        let (c1, prod_gate) := getNewGateName c
        let c2 := (addGateNV c1 prod_gate (Gate.Prod u gx)).1
        let c3 := {c2 with gates := mapInsert c2.gates gate_name (Gate.Int prod_gate "t")}
        .ok (c3, [])
      else .error (.cannotNormalize gate_name)
    | some (Gate.Prod u v) =>
      let w := gx
      if isCombinationConstantGates c ccgFuel u ∨ isCombinationConstantGates c ccgFuel v then
        -- Case 2a: absorb the constant factor into the integrand.
        let (c_gate, not_c_gate) :=
          if isCombinationConstantGates c ccgFuel v then (v, u) else (u, v)
        let (c1, prod_gate) := getNewGateName c
        let c2 := (addGateNV c1 prod_gate (Gate.Prod c_gate w)).1
        let c3 := {c2 with gates := mapInsert c2.gates gate_name (Gate.Int prod_gate not_c_gate)}
        .ok (c3, if not_c_gate ≠ "t" then [gate_name] else [])
      else
        -- Case 2b: g = i1 + i2, i1 = int (u·w) d(v), i2 = int (w·v) d(u).
        let (c1, p1) := getNewGateName c
        let (c2, p2) := getNewGateName c1
        let c3 := (addGateNV c2 p1 (Gate.Prod u w)).1
        let c4 := (addGateNV c3 p2 (Gate.Prod w v)).1
        let (c5, i1) := getNewGateName c4
        let (c6, i2) := getNewGateName c5
        let c7 := (addGateNV c6 i1 (Gate.Int p1 v)).1
        let c8 :=
          if guess ∧ mapContains c7.values gate_name then
            setInitValue c7 i1 ((1 : ℚ)/2 * (mapFind? c7.values gate_name).getD 0)
          else c7
        let push1 := if v ≠ "t" then [i1] else []
        let c9 := (addGateNV c8 i2 (Gate.Int p2 u)).1
        let c10 :=
          if guess ∧ mapContains c9.values gate_name then
            setInitValue c9 i2 ((1 : ℚ)/2 * (mapFind? c9.values gate_name).getD 0)
          else c9
        let push2 := if u ≠ "t" then [i2] else []
        let c11 := {c10 with gates := mapInsert c10.gates gate_name (Gate.Add i1 i2)}
        .ok (c11, push1 ++ push2)
    | some (Gate.Add u v) =>
      let w := gx
      if isCombinationConstantGates c ccgFuel u then
        -- Case 3a: int w d(c+v) → int w d(v).
        let c1 := {c with gates := mapInsert c.gates gate_name (Gate.Int w v)}
        .ok (c1, if v ≠ "t" then [gate_name] else [])
      else if isCombinationConstantGates c ccgFuel v then
        let c1 := {c with gates := mapInsert c.gates gate_name (Gate.Int w u)}
        .ok (c1, if u ≠ "t" then [gate_name] else [])
      else
        -- Case 3b: g = i1 + i2, i1 = int w d(u), i2 = int w d(v).
        let (c1, i1) := getNewGateName c
        let (c2, i2) := getNewGateName c1
        let c3 := (addGateNV c2 i1 (Gate.Int w u)).1
        let c4 :=
          if guess ∧ mapContains c3.values gate_name then
            setInitValue c3 i1 ((1 : ℚ)/2 * (mapFind? c3.values gate_name).getD 0)
          else c3
        let push1 := if u ≠ "t" then [i1] else []
        let c5 := (addGateNV c4 i2 (Gate.Int w v)).1
        let c6 :=
          if guess ∧ mapContains c5.values gate_name then
            setInitValue c5 i2 ((1 : ℚ)/2 * (mapFind? c5.values gate_name).getD 0)
          else c5
        let push2 := if v ≠ "t" then [i2] else []
        let c7 := {c6 with gates := mapInsert c6.gates gate_name (Gate.Add i1 i2)}
        .ok (c7, push1 ++ push2)
    | _ => .error (.cannotNormalize gate_name)
  | _ => .error (.cannotNormalize gate_name)

/-- The work-list loop of `normalize`, fuelled (the source's loop
terminates by the well-founded structure of the rewrites; exhausting the
fuel with a non-empty queue reports an error). -/
def normalizeLoop (guess : Bool) : ℕ → GPAC → List String → Except CErr GPAC
  | 0, c, queue => match queue with | [] => .ok c | _ :: _ => .error .outOfFuel
  | fuel + 1, c, queue =>
    match popMax c queue with
    | none => .ok c
    | some (g, rest) =>
      match normalizeStep guess c g with
      | .error e => .error e
      | .ok (c', pushed) => normalizeLoop guess fuel c' (pushed ++ rest)

/-- `normalize(guess_init_value)`: returns immediately on a finalized
circuit, otherwise processes every integration gate whose second input is
not `t`. -/
def normalize (c : GPAC) (guess : Bool) (fuel : ℕ) : Except CErr GPAC :=
  if c.finalized then .ok c
  else
    let queue := c.gates.filterMap (fun p =>
      match p.2 with
      | Gate.Int _ y => if y ≠ "t" then some p.1 else none
      | _ => none)
    normalizeLoop guess fuel c queue

/-- Checks of `validate` for one binary gate `n` with inputs `x`, `y`
(looked up by name, as `asBinaryGate(g.first)` does). -/
def validateOneGate (c : GPAC) (n x y : String) : Except CErr Unit :=
  match (if ¬ c.validation then validateGateName n false else .ok ()) with
  | .error e => .error e
  | .ok _ =>
    if (x ≠ "t" ∧ ¬ hasGate c x) ∨ (y ≠ "t" ∧ ¬ hasGate c y) then
      .error (.inputMissing n)
    else if ¬ c.validation ∧ isIntGate c n ∧ y ≠ "t" ∧ isConstantGate c y then
      .error (.intConstantSecondInput n)
    else if isIntGate c n ∧ y ≠ "t" then
      .error (.intNotNormalized n)
    else .ok ()

/-- Per-gate checks of `validate` over the gate list (constant gates are
skipped; binary gates are checked through `validateOneGate` on their
looked-up inputs). -/
def validateGatesList (c : GPAC) : List (String × Gate) → Except CErr Unit
  | [] => .ok ()
  | (_, Gate.Constant _) :: rest => validateGatesList c rest
  | (n, Gate.Add _ _) :: rest =>
    match validateOneGate c n ((binInputs c n).map Prod.fst |>.getD "")
        ((binInputs c n).map Prod.snd |>.getD "") with
    | .error e => .error e
    | .ok _ => validateGatesList c rest
  | (n, Gate.Prod _ _) :: rest =>
    match validateOneGate c n ((binInputs c n).map Prod.fst |>.getD "")
        ((binInputs c n).map Prod.snd |>.getD "") with
    | .error e => .error e
    | .ok _ => validateGatesList c rest
  | (n, Gate.Int _ _) :: rest =>
    match validateOneGate c n ((binInputs c n).map Prod.fst |>.getD "")
        ((binInputs c n).map Prod.snd |>.getD "") with
    | .error e => .error e
    | .ok _ => validateGatesList c rest

/-- `validate()`: gate-name/input/normalization checks plus output-gate
checks; returns immediately on a finalized circuit. -/
def validate (c : GPAC) : Except CErr GPAC :=
  if c.finalized then .ok c
  else
    match validateGatesList c c.gates with
    | .error e => .error e
    | .ok _ =>
      if c.output_gate = "" then .error .outputUnset
      else if c.output_gate ≠ "t" ∧ ¬ hasGate c c.output_gate then .error .outputInvalid
      else .ok c

/-- Pass 1 of `simplify`: replace every constant sub-expression gate by a
constant gate with its evaluated value. -/
def foldConstants (c : GPAC) : GPAC :=
  (c.gates.map Prod.fst).foldl (fun acc g =>
    if isCombinationConstantGates acc (acc.gates.length + 1) g then
      let v := valueCombinationConstantGates acc (acc.gates.length + 1) g
      {acc with gates := mapInsert acc.gates g (Gate.Constant v)}
    else acc) c

/-- `findUselessGates`: remove from the set the gates reachable from
`gate_name` through inputs (fuelled; the source's recursion depth is
bounded by the set size, which only shrinks). -/
def findUselessGates (c : GPAC) : ℕ → List String → String → List String
  | 0, s, _ => s
  | fuel + 1, s, gate_name =>
    if gate_name = "t" ∨ isConstantGate c gate_name then s
    else match binInputs c gate_name with
      | none => s
      | some (x, y) =>
        let treatX := s.contains x
        let s := if treatX then s.erase x else s
        let treatY := s.contains y
        let s := if treatY then s.erase y else s
        let s := if treatX then findUselessGates c fuel s x else s
        if treatY then findUselessGates c fuel s y else s

/-- Pass 2 of `simplify`: erase the gates not linked to the output. -/
def removeUseless (c : GPAC) : GPAC :=
  let useless := c.gates.map Prod.fst
  let useless :=
    if useless.contains c.output_gate then
      findUselessGates c (c.gates.length + 1) (useless.erase c.output_gate) c.output_gate
    else useless
  useless.foldl (fun acc g => eraseGate acc g) c

/-- Pass 3 of `simplify`: sort the inputs of addition and product gates. -/
def canonicalize (c : GPAC) : GPAC :=
  {c with gates := c.gates.map (fun p =>
    match p.2 with
    | Gate.Add x y => if strLt y x then (p.1, Gate.Add y x) else p
    | Gate.Prod x y => if strLt y x then (p.1, Gate.Prod y x) else p
    | _ => p)}

/-- `PreferUserDefinedNames::operator()`: empty last, then names not
starting with `_` before names starting with `_`, then lexicographic. -/
def preferUserDefinedNames (x y : String) : Bool :=
  if y.length = 0 then false
  else if x.length = 0 then true
  else if (x.data.head? ≠ some '_') ∧ (y.data.head? = some '_') then true
  else if (x.data.head? = some '_') ∧ (y.data.head? ≠ some '_') then false
  else strLt x y

/-- Insert into a list sorted by `preferUserDefinedNames`. -/
def insertSortedPUDN (a : String) : List String → List String
  | [] => [a]
  | b :: rest => if preferUserDefinedNames b a then b :: insertSortedPUDN a rest else a :: b :: rest

/-- `std::sort(..., PreferUserDefinedNames())` (a total order on distinct
names, so the sorted result is unique). -/
def sortPUDN (l : List String) : List String := l.foldr insertSortedPUDN []

/-- Names of the constant gates, in map order. -/
def constantNames (c : GPAC) : List String :=
  c.gates.filterMap (fun p => match p.2 with | Gate.Constant _ => some p.1 | _ => none)

/-- Names of the addition gates, in map order. -/
def addNames (c : GPAC) : List String :=
  c.gates.filterMap (fun p => match p.2 with | Gate.Add _ _ => some p.1 | _ => none)

/-- Names of the product gates, in map order. -/
def prodNames (c : GPAC) : List String :=
  c.gates.filterMap (fun p => match p.2 with | Gate.Prod _ _ => some p.1 | _ => none)

/-- Names of the integration gates, in map order. -/
def intNames (c : GPAC) : List String :=
  c.gates.filterMap (fun p => match p.2 with | Gate.Int _ _ => some p.1 | _ => none)

/-- `new_names` initialized to the identity on the given names. -/
def initNN (names : List String) : SMap String :=
  names.foldl (fun nn n => mapInsert nn n n) []

/-- Inner loop of the duplicate-constant detection: merge every later
constant with the same value into the current one. -/
def constDedupInner (c : GPAC) (vi : ℚ) (ci : String) :
    List String → SMap String → SMap String
  | [], nn => nn
  | cj :: rest, nn =>
    let nn :=
      match mapFind? c.gates cj with
      | some (Gate.Constant vj) =>
        if vi = vj then
          match mapFind? nn ci with
          | some tgt => mapInsert nn cj tgt
          | none => nn
        else nn
      | _ => nn
    constDedupInner c vi ci rest nn

/-- Outer loop of the duplicate-constant detection. -/
def constDedupLoop (c : GPAC) : List String → SMap String → SMap String
  | [], nn => nn
  | ci :: rest, nn =>
    match mapFind? c.gates ci with
    | some (Gate.Constant vi) => constDedupLoop c rest (constDedupInner c vi ci rest nn)
    | _ => constDedupLoop c rest nn

/-- Deletion phase shared by the merge passes: for every `new_names` pair
mapping a name to a different one, fix up the output and erase the gate. -/
def applyNNDelete (c : GPAC) (nn : SMap String) : GPAC :=
  nn.foldl (fun acc p =>
    if p.1 ≠ p.2 then
      let acc := if acc.output_gate = p.1 then setOutput acc p.2 else acc
      {acc with gates := mapErase acc.gates p.1}
    else acc) c

/-- Rewrite all binary-gate inputs through `new_names`. -/
def renameInputsNN (c : GPAC) (nn : SMap String) : GPAC :=
  {c with gates := c.gates.map (fun p =>
    match p.2 with
    | Gate.Constant _ => p
    | Gate.Add x y => (p.1, Gate.Add ((mapFind? nn x).getD x) ((mapFind? nn y).getD y))
    | Gate.Prod x y => (p.1, Gate.Prod ((mapFind? nn x).getD x) ((mapFind? nn y).getD y))
    | Gate.Int x y => (p.1, Gate.Int ((mapFind? nn x).getD x) ((mapFind? nn y).getD y)))}

/-- Merge condition for two addition gates: identical `(x, y)` inputs. -/
def condAdd (c : GPAC) (a b : String) : Bool :=
  match mapFind? c.gates a, mapFind? c.gates b with
  | some (Gate.Add x1 y1), some (Gate.Add x2 y2) => x1 = x2 ∧ y1 = y2
  | _, _ => false

/-- Merge condition for two product gates: identical `(x, y)` inputs. -/
def condProd (c : GPAC) (a b : String) : Bool :=
  match mapFind? c.gates a, mapFind? c.gates b with
  | some (Gate.Prod x1 y1), some (Gate.Prod x2 y2) => x1 = x2 ∧ y1 = y2
  | _, _ => false

/-- Merge condition for two integration gates: identical `(x, y)` inputs
*and* initial values both present and equal. -/
def condInt (c : GPAC) (a b : String) : Bool :=
  match mapFind? c.gates a, mapFind? c.gates b with
  | some (Gate.Int x1 y1), some (Gate.Int x2 y2) =>
    x1 == x2 && y1 == y2 &&
      (match mapFind? c.values a, mapFind? c.values b with
       | some v1, some v2 => v1 == v2
       | _, _ => false)
  | _, _ => false

/-- Inner loop of a merge-detection phase for the gate `a` over the later
names: merge every still-alive `b` satisfying the condition into `a`'s
current target. -/
def cseInner (cond : String → String → Bool) (a : String) :
    List String → SMap String × Bool → SMap String × Bool
  | [], st => st
  | b :: rest, (nn, ch) =>
    let st :=
      if (mapFind? nn b).isSome ∧ cond a b then
        match mapFind? nn a with
        | some tgt => (mapInsert nn b tgt, true)
        | none => (nn, ch)
      else (nn, ch)
    cseInner cond a rest st

/-- Outer loop of a merge-detection phase: skip names already merged away. -/
def csePhase (cond : String → String → Bool) :
    List String → SMap String × Bool → SMap String × Bool
  | [], st => st
  | a :: rest, (nn, ch) =>
    if (mapFind? nn a).isSome then csePhase cond rest (cseInner cond a rest (nn, ch))
    else csePhase cond rest (nn, ch)

/-- One round of duplicate detection: addition, product, then integration
gates. -/
def cseDetect (c : GPAC) (adds prods ints : List String) (nn : SMap String) :
    SMap String × Bool :=
  csePhase (condInt c) ints (csePhase (condProd c) prods (csePhase (condAdd c) adds (nn, false)))

/-- The `while (changed)` fixpoint of the duplicate-gate merge (fuelled;
every changed round deletes at least one gate). -/
def cseLoop (adds prods ints : List String) : ℕ → GPAC → SMap String → GPAC
  | 0, c, _ => c
  | fuel + 1, c, nn =>
    let (nn', changed) := cseDetect c adds prods ints nn
    if ¬ changed then c
    else
      let c := renameInputsNN c nn'
      let c := applyNNDelete c nn'
      cseLoop adds prods ints fuel c (nn'.filter (fun p => p.1 = p.2))

/-- Final pass of `simplify`: repeatedly erase gates whose output feeds
no gate and is not the circuit output. -/
def deadGateElim : ℕ → GPAC → GPAC
  | 0, c => c
  | fuel + 1, c =>
    let used := c.output_gate :: c.gates.foldr (fun p acc =>
      match p.2 with
      | Gate.Add x y => x :: y :: acc
      | Gate.Prod x y => x :: y :: acc
      | Gate.Int x y => x :: y :: acc
      | Gate.Constant _ => acc) []
    let dead := (c.gates.map Prod.fst).filter (fun g => ¬ used.contains g)
    if dead.isEmpty then c
    else deadGateElim fuel (dead.foldl eraseGate c)

/-- `simplify(constants_only)`: constant folding, dead-gate removal,
input canonicalization, duplicate-constant merge, then (unless
`constants_only`) the duplicate-gate merge fixpoint and a final dead-gate
sweep.  Returns immediately on a finalized circuit. -/
def simplify (c : GPAC) (constants_only : Bool) : GPAC :=
  if c.finalized then c
  else
    let c := foldConstants c
    let c := removeUseless c
    let c := canonicalize c
    let cns := sortPUDN (constantNames c)
    let ans := sortPUDN (addNames c)
    let pns := sortPUDN (prodNames c)
    let ins := sortPUDN (intNames c)
    let nnC := constDedupLoop c cns (initNN cns)
    let c := applyNNDelete c nnC
    let c := renameInputsNN c nnC
    if constants_only then c
    else
      let c := cseLoop ans pns ins (c.gates.length + 1) c (initNN (ans ++ pns ++ ins))
      deadGateElim (c.gates.length + 1) c

/-- The initial-value check of `finalize`: every integration gate with
second input `t` must have a value entry. -/
def checkInitValuesList (c : GPAC) : List (String × Gate) → Except CErr Unit
  | [] => .ok ()
  | (n, Gate.Int _ y) :: rest =>
    if y = "t" ∧ ¬ mapContains c.values n then .error (.noInitValue n)
    else checkInitValuesList c rest
  | (_, Gate.Constant _) :: rest => checkInitValuesList c rest
  | (_, Gate.Add _ _) :: rest => checkInitValuesList c rest
  | (_, Gate.Prod _ _) :: rest => checkInitValuesList c rest

/-- Predicate used by `finalize` to keep only the cached values attached to
integration gates (values of unknown gates are kept, matching the erase loop
in the source which only erases values of existing non-integration gates). -/
def keepIntValue (gates : SMap Gate) (k : String) : Bool :=
  match mapFind? gates k with
  | some (Gate.Int _ _) => true
  | some _ => false
  | none => true

/-- `finalize(simplification)`: normalize, optionally simplify, validate,
check initial values, clear cached non-integration values, cache the
integration-gate list and set `finalized`.  Returns immediately when the
`finalized` flag is already set. -/
def finalize (c : GPAC) (simplification : Bool) (fuel : ℕ) : Except CErr GPAC :=
  if c.finalized then .ok c
  else
    match normalize c true fuel with
    | .error e => .error e
    | .ok c1 =>
      if c1.finalized then .ok c1
      else
        match validate (if simplification then simplify c1 false else c1) with
        | .error e => .error e
        | .ok c3 =>
          match checkInitValuesList c3 c3.gates with
          | .error e => .error e
          | .ok _ =>
            .ok {c3 with
                  values := c3.values.filter (fun p => keepIntValue c3.gates p.1),
                  int_gates := c3.gates.filterMap (fun p =>
                    match p.2 with
                    | Gate.Int _ _ => some p.1
                    | _ => none),
                  finalized := true}

/-- One propagation pass of `computeValue`: give a value to every
addition/product gate whose two inputs already have values. -/
def computeValuesPass (c : GPAC) (vals : SMap ℚ) : SMap ℚ × Bool :=
  c.gates.foldl (fun (acc : SMap ℚ × Bool) p =>
    if mapContains acc.1 p.1 then acc
    else match p.2 with
      | Gate.Add x y =>
        match mapFind? acc.1 x, mapFind? acc.1 y with
        | some a, some b => (mapInsert acc.1 p.1 (a + b), true)
        | _, _ => acc
      | Gate.Prod x y =>
        match mapFind? acc.1 x, mapFind? acc.1 y with
        | some a, some b => (mapInsert acc.1 p.1 (a * b), true)
        | _, _ => acc
      | _ => acc) (vals, false)

/-- The `while (changed)` propagation loop (fuelled; every changed pass
values at least one more gate). -/
def computeValuesLoop (c : GPAC) : ℕ → SMap ℚ → SMap ℚ
  | 0, vals => vals
  | fuel + 1, vals =>
    let (vals', changed) := computeValuesPass c vals
    if changed then computeValuesLoop c fuel vals' else vals'

/-- `computeValue(t_0)` (the const overload): evaluate the output gate at
time `t_0` on a copy of the value table, seeding constants and `t` and
propagating; `none` models the `map::at` throw when the output never
receives a value. -/
def computeValue (c : GPAC) (t0 : ℚ) : Option ℚ :=
  let cv := c.values.filter (fun p =>
    match mapFind? c.gates p.1 with
    | some (Gate.Int _ _) => true
    | some (Gate.Constant _) => true
    | some _ => false
    | none => true)
  let cv := c.gates.foldl (fun acc p =>
    match p.2 with
    | Gate.Constant v => mapInsert acc p.1 v
    | _ => acc) cv
  let cv := mapInsert cv "t" t0
  mapFind? (computeValuesLoop c (c.gates.length + 1) cv) c.output_gate

/-- `DerivateGate(gate_name)`: recursively build the gates computing the
derivative of the sub-circuit rooted at `gate_name`, returning the name of
the gate holding the derivative; the output gate name is updated whenever
the processed gate is the current output.  Fuelled: the source's recursion
depth is bounded by the depth of the (acyclic) circuit. -/
def DerivateGate : ℕ → GPAC → String → Except CErr (GPAC × String)
  | 0, _, _ => .error .outOfFuel
  | fuel + 1, c, gate_name =>
    let ccgFuel := c.gates.length + 1
    if gate_name = "t" then
      let (c', res) := addGateNV c "" (Gate.Constant 1)
      .ok (if gate_name = c'.output_gate then setOutput c' res else c', res)
    else if isCombinationConstantGates c ccgFuel gate_name then
      let (c', res) := addGateNV c "" (Gate.Constant 0)
      .ok (if gate_name = c'.output_gate then setOutput c' res else c', res)
    else
      match mapFind? c.gates gate_name with
      | some (Gate.Int x y) =>
        if y ≠ "t" then .error .derivateNotNormalized
        else .ok (if gate_name = c.output_gate then setOutput c x else c, x)
      | some (Gate.Add x y) =>
        if x ≠ "t" ∧ isCombinationConstantGates c ccgFuel x then
          match DerivateGate fuel c y with
          | .error e => .error e
          | .ok (c', d) =>
            .ok (if gate_name = c'.output_gate then setOutput c' d else c', d)
        else if y ≠ "t" ∧ isCombinationConstantGates c ccgFuel y then
          match DerivateGate fuel c x with
          | .error e => .error e
          | .ok (c', d) =>
            .ok (if gate_name = c'.output_gate then setOutput c' d else c', d)
        else
          match DerivateGate fuel c x with
          | .error e => .error e
          | .ok (c1, dx) =>
            match DerivateGate fuel c1 y with
            | .error e => .error e
            | .ok (c2, dy) =>
              let (c3, res) := addGateNV c2 "" (Gate.Add dx dy)
              .ok (if gate_name = c3.output_gate then setOutput c3 res else c3, res)
      | some (Gate.Prod x y) =>
        if x ≠ "t" ∧ isCombinationConstantGates c ccgFuel x then
          match DerivateGate fuel c y with
          | .error e => .error e
          | .ok (c', d) =>
            let (c'', res) := addGateNV c' "" (Gate.Prod x d)
            .ok (if gate_name = c''.output_gate then setOutput c'' res else c'', res)
        else if y ≠ "t" ∧ isCombinationConstantGates c ccgFuel y then
          match DerivateGate fuel c x with
          | .error e => .error e
          | .ok (c', d) =>
            let (c'', res) := addGateNV c' "" (Gate.Prod y d)
            .ok (if gate_name = c''.output_gate then setOutput c'' res else c'', res)
        else
          match DerivateGate fuel c x with
          | .error e => .error e
          | .ok (c1, dx) =>
            match DerivateGate fuel c1 y with
            | .error e => .error e
            | .ok (c2, dy) =>
              let (c3, p1) := addGateNV c2 "" (Gate.Prod dx y)
              let (c4, p2) := addGateNV c3 "" (Gate.Prod x dy)
              let (c5, res) := addGateNV c4 "" (Gate.Add p1 p2)
              .ok (if gate_name = c5.output_gate then setOutput c5 res else c5, res)
      | _ => .error (.missingGate gate_name)

/-- `Derivate()`: derivative circuit of a copy, renamed `…_der`. -/
def Derivate (c : GPAC) : Except CErr GPAC :=
  let res := copyCircuit c
  let res := renameCircuit res (res.circuit_name ++ "_der")
  match DerivateGate (res.gates.length + 1) res res.output_gate with
  | .error e => .error e
  | .ok (res, _) => .ok res

/-- `Inverse()`: on a copy, compute `init = A(0)`, build the derivative,
then the auxiliary integration `z' = (-1·A')·z²` with `z(0) = 1/init`,
and make `z` the output.  The source performs no check on `init`: with
`init = 0` it computes the floating-point division `1./0` (infinity); in
this ℚ model `1/0 = 0`.  The division result matters to no theorem stated
about the `init = 0` case. -/
def Inverse (c : GPAC) : Except CErr GPAC :=
  let res := copyCircuit c
  match computeValue res 0 with
  | none => .error .computeValueFailure
  | some init =>
    let res := renameCircuit res (res.circuit_name ++ "_inv")
    match DerivateGate (res.gates.length + 1) res res.output_gate with
    | .error e => .error e
    | .ok (res, _) =>
      let (res, cg) := addGateNV res "" (Gate.Constant (-1))
      let (res, p1) := addGateNV res "" (Gate.Prod cg res.output_gate)
      let (res, p2) := getNewGateName res
      let (res, z) := addGateNV res "" (Gate.Int p2 "t")
      let res := setInitValue res z (1 / init)
      let (res, p3) := addGateNV res "" (Gate.Prod z z)
      let res := (addGateNV res p2 (Gate.Prod p1 p3)).1
      .ok (setOutput res z)

/-- `ensureUniqueNames(circuit)`: give a fresh name to every gate of `c`
that collides with a gate of `other`, updating the moved values, the
output name and all inputs. -/
def ensureUniqueNames (c other : GPAC) : GPAC :=
  let st := c.gates.foldl (fun (acc : GPAC × SMap String) p =>
    if hasGate other p.1 then
      let (c', n) := getNewGateName acc.1
      (c', mapInsert acc.2 p.1 n)
    else acc) (c, ([] : SMap String))
  let c := st.1
  let nn := st.2
  let c := nn.foldl (fun acc p =>
    match mapFind? acc.gates p.1 with
    | some g =>
      let acc := {acc with gates := mapErase (mapInsert acc.gates p.2 g) p.1}
      match mapFind? acc.values p.1 with
      | some v => {acc with values := mapInsert (mapErase acc.values p.1) p.2 v}
      | none => acc
    | none => acc) c
  let c :=
    match mapFind? nn c.output_gate with
    | some n => setOutput c n
    | none => c
  renameInputsNN c nn

/-- Substitute the output of the inner circuit for every `t` input among
the outer circuit's gates (iterating the outer circuit's gate names). -/
def substituteT (result : GPAC) (names : List String) (old_output : String) : GPAC :=
  names.foldl (fun acc g =>
    match mapFind? acc.gates g with
    | some (Gate.Add x y) =>
      let g' := Gate.Add (if x = "t" then old_output else x) (if y = "t" then old_output else y)
      {acc with gates := mapInsert acc.gates g g'}
    | some (Gate.Prod x y) =>
      let g' := Gate.Prod (if x = "t" then old_output else x) (if y = "t" then old_output else y)
      {acc with gates := mapInsert acc.gates g g'}
    | some (Gate.Int x y) =>
      let g' := Gate.Int (if x = "t" then old_output else x) (if y = "t" then old_output else y)
      {acc with gates := mapInsert acc.gates g g'}
    | _ => acc) result

/-- Models the initial-value propagation step of composition
(`GPAC.hpp`, the `b > 0` / `b < 0` branches of `operator()(const GPAC&)`):
the source pre-simulates the outer circuit up to `|B(0)|` with a
floating-point RK4 integrator and imports the values obtained.  When
`B(0) = 0` the source skips both branches, and this model is exact; the
numerical effect of the two other branches is outside the scope of this
embedding (no claim depends on it), so they are modelled as the identity
as well. -/
def composePresim (copyA : GPAC) (_b0 : ℚ) : GPAC := copyA

/-- The non-shortcut branch of composition `A(B)`: clone `B`, rename its
colliding gates, splice in a clone of `A`, substitute `B`'s output for
`t` inside the `A` part, set the output, and normalize. -/
def composeGeneral (a b : GPAC) (fuel : ℕ) : Except CErr GPAC :=
  match computeValue b 0 with
  | none => .error .computeValueFailure
  | some b0 =>
    let result := copyCircuit b
    let copyA := composePresim (copyCircuit a) b0
    let result := ensureUniqueNames result copyA
    let old_output := result.output_gate
    let result := copyInto result copyA
    let result := substituteT result (a.gates.map Prod.fst) old_output
    let result := setOutput result a.output_gate
    normalize result true fuel

/-- `operator()(const GPAC &circuit)` — composition `A ∘ B` (`A(B)`).
Failing when either output is unset; returning a copy of `A` when `B` is
the identity (`B`'s output is `t`), a copy of `B` when `A` is the
identity; otherwise the general construction. -/
def compose (a b : GPAC) (fuel : ℕ) : Except CErr GPAC :=
  if a.output_gate = "" ∨ b.output_gate = "" then .error .noOutput
  else if b.output_gate = "t" then .ok (copyCircuit a)
  else if a.output_gate = "t" then .ok (copyCircuit b)
  else composeGeneral a b fuel

/-- First constant gate with the given value, in map order (the `break`
of the search loop in `operator+(T)` / `operator*(T)`). -/
def findFirstConstant : SMap Gate → ℚ → Option String
  | [], _ => none
  | (n, Gate.Constant v) :: rest, k =>
    if v = k then some n else findFirstConstant rest k
  | _ :: rest, k => findFirstConstant rest k

/-- `operator+(T constant)`: on a copy, reuse an existing constant gate
with this value if present (adding only a fresh addition gate), otherwise
create one constant and one addition gate; the addition gate becomes the
output. -/
def addConstantOp (a : GPAC) (constant : ℚ) : GPAC :=
  let res := copyCircuit a
  match findFirstConstant res.gates constant with
  | some gate_name =>
    let (res, new_gate) := getNewGateName res
    let res := (addGateNV res new_gate (Gate.Add res.output_gate gate_name)).1
    setOutput res new_gate
  | none =>
    let (res, constant_gate) := getNewGateName res
    let (res, output) := getNewGateName res
    let res := (addGateNV res constant_gate (Gate.Constant constant)).1
    let res := (addGateNV res output (Gate.Add res.output_gate constant_gate)).1
    setOutput res output

/-- `operator*(T constant)`: as `operator+(T)` with a product gate. -/
def mulConstantOp (a : GPAC) (constant : ℚ) : GPAC :=
  let res := copyCircuit a
  match findFirstConstant res.gates constant with
  | some gate_name =>
    let (res, new_gate) := getNewGateName res
    let res := (addGateNV res new_gate (Gate.Prod res.output_gate gate_name)).1
    setOutput res new_gate
  | none =>
    let (res, constant_gate) := getNewGateName res
    let (res, output) := getNewGateName res
    let res := (addGateNV res constant_gate (Gate.Constant constant)).1
    let res := (addGateNV res output (Gate.Prod res.output_gate constant_gate)).1
    setOutput res output

/-- `operator()(gate_name, op, x, y)` — dispatch on the operator symbol.
An `Except.error` corresponds to a process exit in the source; the
fall-back value is unobservable and never reached for the concrete
circuits built below. -/
def opGate (c : GPAC) (gate_name op x y : String) : GPAC :=
  if op = "a" ∨ op = "A" ∨ op = "+" then
    match addAddGate c gate_name x y true with | .ok (c', _) => c' | .error _ => c
  else if op = "p" ∨ op = "P" ∨ op = "x" ∨ op = "X" ∨ op = "*" then
    match addProductGate c gate_name x y true with | .ok (c', _) => c' | .error _ => c
  else if op = "i" ∨ op = "I" then
    match addIntGate c gate_name x y true with | .ok (c', _) => c' | .error _ => c
  else c

/-- `operator()(gate_name, value)` — add a constant gate. -/
def opConst (c : GPAC) (gate_name : String) (value : ℚ) : GPAC :=
  match addConstantGate c gate_name value true with | .ok (c', _) => c' | .error _ => c

/-- The builtin `Exp` circuit: one self-integrating gate `exp` with
initial value 1. -/
def ExpCircuit (id : ℕ) : GPAC :=
  let res := mkGPAC "Exp" true true id
  let res := opGate res "exp" "I" "exp" "t"
  let res := setOutput res "exp"
  setInitValue res "exp" 1

/-- The builtin `Constant(c)` circuit: a single constant gate `c`. -/
def ConstantCircuit (k : ℚ) (id : ℕ) : GPAC :=
  let res := mkGPAC "Const" true true id
  let res := opConst res "c" k
  setOutput res "c"

/-- Consistency of an association list as a map: every entry is the one
its key looks up to (true for every list built by `mapInsert`, and for
every `std::map` image). -/
def mapConsistent {α : Type} [DecidableEq α] (m : SMap α) : Bool :=
  m.all (fun p => mapFind? m p.1 == some p.2)

/-- Witness circuit for C1: `g = int w d(y)` with `y = int a d(t)`. -/
def exC1 : GPAC :=
  { circuit_name := "C", gates := [("g", Gate.Int "w" "y"), ("y", Gate.Int "a" "t")],
    output_gate := "g", validation := false, block := false, finalized := false,
    values := [("g", 3)], int_gates := [], new_gate_id := 0 }

/-- Witness circuit for C8's Case 2b: `g = int w d(y)`, `y = u · v` with
`u`, `v` integration gates (so not constant sub-expressions). -/
def exC8a : GPAC :=
  { circuit_name := "C", gates :=
      [("g", Gate.Int "w" "y"), ("u", Gate.Int "a" "t"), ("v", Gate.Int "b" "t"),
       ("w", Gate.Int "a" "t"), ("y", Gate.Prod "u" "v")],
    output_gate := "g", validation := false, block := false, finalized := false,
    values := [("g", 1)], int_gates := [], new_gate_id := 0 }

/-- Witness circuit for C8's Case 3b: as `exC8a` but `y = u + v`. -/
def exC8b : GPAC :=
  { circuit_name := "C", gates :=
      [("g", Gate.Int "w" "y"), ("u", Gate.Int "a" "t"), ("v", Gate.Int "b" "t"),
       ("w", Gate.Int "a" "t"), ("y", Gate.Add "u" "v")],
    output_gate := "g", validation := false, block := false, finalized := false,
    values := [("g", 1)], int_gates := [], new_gate_id := 0 }

/-- The finalized `Exp` circuit (obtained through `finalize`; the error
branch is unreachable). -/
def expFinal : GPAC :=
  match finalize (ExpCircuit 0) true 9 with
  | .ok c => c
  | .error _ => ExpCircuit 0

/-- Result of `addAddGate` on the `Exp` circuit (for the C5 witness). -/
def exAddR : GPAC × String :=
  match addAddGate (ExpCircuit 0) "a2" "exp" "exp" true with
  | .ok p => p
  | .error _ => (ExpCircuit 0, "")

/-- Result of `addProductGate` on the `Exp` circuit (for the C5 witness). -/
def exProdR : GPAC × String :=
  match addProductGate (ExpCircuit 0) "p2" "exp" "exp" true with
  | .ok p => p
  | .error _ => (ExpCircuit 0, "")

/-- Result of `addIntGate` on the `Exp` circuit (for the C5 witness). -/
def exIntR : GPAC × String :=
  match addIntGate (ExpCircuit 0) "i2" "exp" "exp" true with
  | .ok p => p
  | .error _ => (ExpCircuit 0, "")

/-- Result of `addConstantGate` on the `Exp` circuit (for the C5 witness). -/
def exConstR : GPAC × String :=
  match addConstantGate (ExpCircuit 0) "c2" 5 true with
  | .ok p => p
  | .error _ => (ExpCircuit 0, "")

/-- Circuit violating the intended finalization invariant while keeping
`finalized = true`: rename the `t` input of the finalized exponential
circuit.  `renameInputs` does not clear the flag. -/
def c2bad : GPAC := renameInputs expFinal "t" "exp"

/-- Result of inverting the constant-zero circuit (used to show `Inverse`
does not reject `A(0) = 0`). -/
def invZero : GPAC :=
  match Inverse (ConstantCircuit 0 0) with
  | .ok c => c
  | .error _ => ConstantCircuit 0 0

/-- Result of inverting the constant-two circuit. -/
def invTwo : GPAC :=
  match Inverse (ConstantCircuit 2 0) with
  | .ok c => c
  | .error _ => ConstantCircuit 2 0

/-- The identity circuit `Id` with output `t`, as built in the source's
composition code. -/
def idCircuit : GPAC := setOutput (mkGPAC "Id" true true 0) "t"

/-- Two equal integration gates with equal initial values, used to witness
the merge conditions of the simplifier. -/
def exC7 : GPAC :=
  { circuit_name := "c7",
    gates := [("i1", Gate.Int "x" "t"), ("i2", Gate.Int "x" "t"), ("x", Gate.Constant 1)],
    output_gate := "i1", validation := true, block := false, finalized := false,
    values := [("i1", 3), ("i2", 3)], int_gates := [], new_gate_id := 0 }

/-- A finalized user circuit with an integration gate, used as an
assignment target. -/
def exTgt : GPAC :=
  { circuit_name := "tgt", gates := [("z", Gate.Int "z" "t")], output_gate := "z",
    validation := true, block := false, finalized := true, values := [("z", 5)],
    int_gates := ["z"], new_gate_id := 0 }

/-! ## Theorems -/

theorem mapFind?_insert {α : Type} (m : SMap α) (k k' : String) (v : α) :
    mapFind? (mapInsert m k v) k' = if k' = k then some v else mapFind? m k' := by
  induction m with
  | nil => simp [mapInsert, mapFind?]
  | cons p rest ih =>
    obtain ⟨k₀, v₀⟩ := p
    by_cases h1 : k = k₀
    · subst h1
      simp only [mapInsert, if_pos rfl, mapFind?]
      by_cases h2 : k' = k
      · rw [if_pos h2, if_pos h2]
      · rw [if_neg h2, if_neg h2, if_neg h2]
    · simp only [mapInsert, if_neg h1]
      by_cases h3 : strLt k k₀ = true
      · simp only [if_pos h3, mapFind?]
      · simp only [if_neg h3, mapFind?]
        by_cases h2 : k' = k₀
        · have h4 : ¬ (k' = k) := by
            intro hh
            apply h1
            rw [← hh, h2]
          rw [if_pos h2, if_neg h4, if_pos h2]
        · rw [if_neg h2, ih]
          by_cases h5 : k' = k
          · rw [if_pos h5, if_pos h5]
          · rw [if_neg h5, if_neg h5, if_neg h2]

theorem mapFind?_erase {α : Type} (m : SMap α) (k k' : String) :
    mapFind? (mapErase m k) k' = if k' = k then none else mapFind? m k' := by
  induction m with
  | nil => simp [mapErase, mapFind?]
  | cons p rest ih =>
    obtain ⟨k₀, v₀⟩ := p
    by_cases h1 : k₀ = k
    · subst h1
      have hf : mapErase ((k₀, v₀) :: rest) k₀ = mapErase rest k₀ := by
        simp [mapErase, List.filter_cons]
      rw [hf, ih]
      by_cases h2 : k' = k₀
      · simp [h2, mapFind?]
      · simp [h2, mapFind?]
    · have hf : mapErase ((k₀, v₀) :: rest) k = (k₀, v₀) :: mapErase rest k := by
        simp [mapErase, List.filter_cons, h1]
      rw [hf]
      simp only [mapFind?, ih]
      by_cases h2 : k' = k₀
      · have h4 : ¬ (k' = k) := by
          intro hh
          apply h1
          rw [← h2, hh]
        rw [if_pos h2, if_neg h4, if_pos h2]
      · rw [if_neg h2]
        by_cases h5 : k' = k
        · rw [if_pos h5, if_pos h5]
        · rw [if_neg h5, if_neg h5, if_neg h2]

theorem digitChar_toNat (d : ℕ) (h : d < 10) : (digitChar d).toNat = 48 + d := by
  interval_cases d <;> decide

theorem digitChar_isDigit (d : ℕ) (h : d < 10) : (digitChar d).isDigit = true := by
  interval_cases d <;> decide

theorem decodeDigits_append (l : List Char) (c : Char) :
    decodeDigits (l ++ [c]) = 10 * decodeDigits l + (c.toNat - 48) := by
  simp [decodeDigits, List.foldl_append]

theorem decodeDigits_natDigits (n : ℕ) : decodeDigits (natDigits n) = n := by
  induction n using Nat.strong_induction_on with
  | _ n ih =>
    by_cases h : n < 10
    · rw [natDigits, dif_pos h]
      simp [decodeDigits, digitChar_toNat n h]
    · rw [natDigits, dif_neg h]
      rw [decodeDigits_append, ih (n / 10) (Nat.div_lt_self (by omega) (by omega))]
      rw [digitChar_toNat (n % 10) (Nat.mod_lt _ (by omega))]
      omega

theorem natDigits_all_digits (n : ℕ) : ∀ c ∈ natDigits n, c.isDigit = true := by
  induction n using Nat.strong_induction_on with
  | _ n ih =>
    by_cases h : n < 10
    · rw [natDigits, dif_pos h]
      intro c hc
      simp at hc
      subst hc
      exact digitChar_isDigit n h
    · rw [natDigits, dif_neg h]
      intro c hc
      rcases List.mem_append.mp hc with h1 | h2
      · exact ih (n / 10) (Nat.div_lt_self (by omega) (by omega)) c h1
      · simp at h2
        subst h2
        exact digitChar_isDigit (n % 10) (Nat.mod_lt _ (by omega))

theorem natRepr_injective : Function.Injective natRepr := by
  intro m n h
  have : decodeDigits (natDigits m) = decodeDigits (natDigits n) := by
    have hd : natDigits m = natDigits n := congrArg String.data h
    rw [hd]
  rwa [decodeDigits_natDigits, decodeDigits_natDigits] at this

theorem string_data_inj {s t : String} (h : s.data = t.data) : s = t := by
  cases s
  cases t
  exact congrArg String.mk h

/-- Fresh names `"_" ++ natRepr k` are distinct for distinct counter values. -/
theorem freshName_inj (m n : ℕ) (h : m ≠ n) :
    ("_" ++ natRepr m : String) ≠ ("_" ++ natRepr n : String) := by
  intro he
  apply h
  apply natRepr_injective
  have hd := congrArg String.data he
  simp only [String.data_append] at hd
  have hd2 : (natRepr m).data = (natRepr n).data := by simpa using hd
  exact string_data_inj hd2

/-! ## Supporting lemmas -/

theorem mapFind?_mem {α : Type} {m : SMap α} {k : String} {v : α}
    (h : mapFind? m k = some v) : (k, v) ∈ m := by
  induction m with
  | nil => simp [mapFind?] at h
  | cons p rest ih =>
    obtain ⟨k₀, v₀⟩ := p
    by_cases h1 : k = k₀
    · subst h1
      simp [mapFind?] at h
      subst h
      exact List.mem_cons_self _ _
    · simp [mapFind?, h1] at h
      exact List.mem_cons_of_mem _ (ih h)

theorem mapFind?_eq_none_of_not_mem_keys {α : Type} {m : SMap α} {k : String}
    (h : k ∉ m.map Prod.fst) : mapFind? m k = none := by
  induction m with
  | nil => rfl
  | cons p rest ih =>
    obtain ⟨k₀, v₀⟩ := p
    rw [List.map_cons] at h
    simp only [List.mem_cons] at h
    push_neg at h
    simp [mapFind?, h.1, ih h.2]

theorem mapFind?_filter_key {α : Type} (m : SMap α) (q : String → Bool) (k : String) :
    mapFind? (m.filter (fun p => q p.1)) k = if q k then mapFind? m k else none := by
  induction m with
  | nil => simp [mapFind?]
  | cons p rest ih =>
    obtain ⟨k₀, v₀⟩ := p
    by_cases hq : q k₀
    · rw [List.filter_cons_of_pos (by simpa using hq)]
      by_cases h1 : k = k₀
      · subst h1
        simp [mapFind?, hq]
      · simp only [mapFind?, if_neg h1, ih]
    · rw [List.filter_cons_of_neg (by simpa using hq)]
      by_cases h1 : k = k₀
      · subst h1
        simp [mapFind?, hq, ih]
      · simp only [mapFind?, if_neg h1, ih]

theorem mapConsistent_find {α : Type} [DecidableEq α] {m : SMap α}
    (h : mapConsistent m = true) {p : String × α} (hp : p ∈ m) :
    mapFind? m p.1 = some p.2 := by
  have := List.all_eq_true.mp h p hp
  simpa using this

/-! ### Fresh-name bookkeeping -/

theorem takeWhile_digits_append (l r : List Char) (h : ∀ x ∈ l, Char.isDigit x = true) :
    (l ++ '_' :: r).takeWhile Char.isDigit = l := by
  induction l with
  | nil => simp [List.takeWhile]
  | cons a l ih =>
    have ha : Char.isDigit a = true := h a (List.mem_cons_self _ _)
    simp only [List.cons_append, List.takeWhile_cons, ha, if_true]
    rw [ih (fun x hx => h x (List.mem_cons_of_mem _ hx))]

theorem natDigits_ne_nil (n : ℕ) : natDigits n ≠ [] := by
  rw [natDigits]
  by_cases h : n < 10 <;> simp [h]

/-- `ensureNewGateIdLargeEnough` on a generated name `"_" ++ natRepr k`
bumps the counter to `max` of itself and `k`. -/
theorem ensure_fresh (c : GPAC) (k : ℕ) :
    ensureNewGateIdLargeEnough c ("_" ++ natRepr k) = {c with new_gate_id := max c.new_gate_id k} := by
  have hdata : ("_" ++ natRepr k : String).data = '_' :: natDigits k := by
    simp [String.data_append, natRepr]
  have hrev : ("_" ++ natRepr k : String).data.reverse = (natDigits k).reverse ++ '_' :: [] := by
    rw [hdata]
    simp
  have hdig : ∀ x ∈ (natDigits k).reverse, Char.isDigit x = true := by
    intro x hx
    exact natDigits_all_digits k x (List.mem_reverse.mp hx)
  have htake : (("_" ++ natRepr k : String).data.reverse).takeWhile Char.isDigit
      = (natDigits k).reverse := by
    rw [hrev]
    exact takeWhile_digits_append _ _ hdig
  have hlen : ((natDigits k).reverse).length = (natDigits k).length := List.length_reverse _
  have hdrop : (("_" ++ natRepr k : String).data.reverse).drop
      (((("_" ++ natRepr k : String).data.reverse).takeWhile Char.isDigit).length) = ['_'] := by
    rw [htake, hrev, hlen, ← List.length_reverse (natDigits k)]
    exact List.drop_left _ _
  have hne : (natDigits k).reverse ≠ [] := by
    intro hh
    exact natDigits_ne_nil k (by simpa using congrArg List.reverse hh)
  simp only [ensureNewGateIdLargeEnough]
  rw [htake] at hdrop
  rw [htake, hdrop]
  cases hds : (natDigits k).reverse with
  | nil => exact absurd hds hne
  | cons d ds =>
    have hdec : decodeDigits (d :: ds).reverse = k := by
      rw [← hds, List.reverse_reverse]
      exact decodeDigits_natDigits k
    simp only [hdec, if_pos rfl]
    by_cases hgt : k > c.new_gate_id
    · rw [if_pos hgt]
      have hm : max c.new_gate_id k = k := by omega
      rw [hm]
      simp
    · rw [if_neg hgt]
      have hm : max c.new_gate_id k = c.new_gate_id := by omega
      rw [hm]
      simp

/-- `addGateNV` on a nonempty name: the full characterization. -/
theorem addGateNV_named (c : GPAC) (n : String) (g : Gate) (hn : n ≠ "") :
    addGateNV c n g =
      (ensureNewGateIdLargeEnough {c with finalized := false, gates := mapInsert c.gates n g} n, n) := by
  simp [addGateNV, hn]

/-- `addGateNV` on the empty name: fresh name from the counter. -/
theorem addGateNV_fresh (c : GPAC) (g : Gate) :
    addGateNV c "" g =
      ({c with finalized := false, new_gate_id := c.new_gate_id + 1,
               gates := mapInsert c.gates ("_" ++ natRepr (c.new_gate_id + 1)) g},
       "_" ++ natRepr (c.new_gate_id + 1)) := by
  simp [addGateNV, getNewGateName, ensure_fresh]

theorem freshName_ne_empty (k : ℕ) : ("_" ++ natRepr k : String) ≠ "" := by
  intro h
  have hd := congrArg String.data h
  simp [String.data_append] at hd

theorem nat_max_succ (a : ℕ) : (a + 1) ⊔ a = a + 1 := by omega

/-- Case 2b of `normalize` (second input a product of two non-constant
sub-expressions): the processed gate becomes an addition of two fresh
integration gates, each receiving half the original initial value. -/
theorem normalizeStep_case2b (c : GPAC) (g W Y U V : String) (v0 : ℚ)
    (hg : mapFind? c.gates g = some (Gate.Int W Y))
    (hY : mapFind? c.gates Y = some (Gate.Prod U V))
    (hu : isCombinationConstantGates c (c.gates.length + 1) U = false)
    (hv : isCombinationConstantGates c (c.gates.length + 1) V = false)
    (hval : mapFind? c.values g = some v0)
    (hf1 : mapFind? c.gates ("_" ++ natRepr (c.new_gate_id + 3)) = none) :
    ∃ c' l, normalizeStep true c g = .ok (c', l) ∧
      mapFind? c'.gates g =
        some (Gate.Add ("_" ++ natRepr (c.new_gate_id + 3)) ("_" ++ natRepr (c.new_gate_id + 4))) ∧
      mapFind? c'.values ("_" ++ natRepr (c.new_gate_id + 3)) = some (v0 / 2) ∧
      mapFind? c'.values ("_" ++ natRepr (c.new_gate_id + 4)) = some (v0 / 2) ∧
      l = (if V ≠ "t" then ["_" ++ natRepr (c.new_gate_id + 3)] else []) ++
          (if U ≠ "t" then ["_" ++ natRepr (c.new_gate_id + 4)] else []) := by
  have hgne1 : ¬ (g = ("_" ++ natRepr (c.new_gate_id + 3) : String)) := by
    intro h
    rw [h, hf1] at hg
    exact Option.noConfusion hg
  have hne34 : ¬ (("_" ++ natRepr (c.new_gate_id + 3) : String) = ("_" ++ natRepr (c.new_gate_id + 4))) :=
    freshName_inj _ _ (by omega)
  have hhalf : (1 : ℚ)/2 * v0 = v0 / 2 := by ring
  have e2 : c.new_gate_id + 1 + 1 = c.new_gate_id + 2 := by omega
  have e3 : c.new_gate_id + 2 + 1 = c.new_gate_id + 3 := by omega
  have e4 : c.new_gate_id + 3 + 1 = c.new_gate_id + 4 := by omega
  have hne21 : ¬ (("_" ++ natRepr (c.new_gate_id + 2) : String) = ("_" ++ natRepr (c.new_gate_id + 1))) :=
    freshName_inj _ _ (by omega)
  have hne31 : ¬ (("_" ++ natRepr (c.new_gate_id + 3) : String) = ("_" ++ natRepr (c.new_gate_id + 1))) :=
    freshName_inj _ _ (by omega)
  have hne32 : ¬ (("_" ++ natRepr (c.new_gate_id + 3) : String) = ("_" ++ natRepr (c.new_gate_id + 2))) :=
    freshName_inj _ _ (by omega)
  have hne41 : ¬ (("_" ++ natRepr (c.new_gate_id + 4) : String) = ("_" ++ natRepr (c.new_gate_id + 1))) :=
    freshName_inj _ _ (by omega)
  have hne42 : ¬ (("_" ++ natRepr (c.new_gate_id + 4) : String) = ("_" ++ natRepr (c.new_gate_id + 2))) :=
    freshName_inj _ _ (by omega)
  have hne43 : ¬ (("_" ++ natRepr (c.new_gate_id + 4) : String) = ("_" ++ natRepr (c.new_gate_id + 3))) :=
    freshName_inj _ _ (by omega)
  simp only [normalizeStep, hg, hY, hu, hv, Bool.false_eq_true, or_self, if_neg, if_false,
    getNewGateName, addGateNV_named, freshName_ne_empty, ne_eq, not_false_eq_true,
    ensure_fresh, max_self, nat_max_succ, setInitValue, isIntGate, mapContains,
    mapFind?_insert, hval, hgne1, hne34, hne21, hne31, hne32, hne41, hne42, hne43,
    e2, e3, e4, Option.getD_some, Option.isSome_some, ite_self, if_true, and_self,
    true_and, if_false, hhalf, not_true, not_false_eq_true]
  refine ⟨_, _, rfl, ?_, ?_, ?_, rfl⟩
  · simp [mapFind?_insert]
  · simp [mapFind?_insert, hne34]
  · simp [mapFind?_insert]

/-- Case 3b of `normalize` (second input a sum of two non-constant
sub-expressions): the processed gate becomes an addition of two fresh
integration gates, each receiving half the original initial value. -/
theorem normalizeStep_case3b (c : GPAC) (g W Y U V : String) (v0 : ℚ)
    (hg : mapFind? c.gates g = some (Gate.Int W Y))
    (hY : mapFind? c.gates Y = some (Gate.Add U V))
    (hu : isCombinationConstantGates c (c.gates.length + 1) U = false)
    (hv : isCombinationConstantGates c (c.gates.length + 1) V = false)
    (hval : mapFind? c.values g = some v0)
    (hf1 : mapFind? c.gates ("_" ++ natRepr (c.new_gate_id + 1)) = none) :
    ∃ c' l, normalizeStep true c g = .ok (c', l) ∧
      mapFind? c'.gates g =
        some (Gate.Add ("_" ++ natRepr (c.new_gate_id + 1)) ("_" ++ natRepr (c.new_gate_id + 2))) ∧
      mapFind? c'.values ("_" ++ natRepr (c.new_gate_id + 1)) = some (v0 / 2) ∧
      mapFind? c'.values ("_" ++ natRepr (c.new_gate_id + 2)) = some (v0 / 2) ∧
      l = (if U ≠ "t" then ["_" ++ natRepr (c.new_gate_id + 1)] else []) ++
          (if V ≠ "t" then ["_" ++ natRepr (c.new_gate_id + 2)] else []) := by
  have hgne1 : ¬ (g = ("_" ++ natRepr (c.new_gate_id + 1) : String)) := by
    intro h
    rw [h, hf1] at hg
    exact Option.noConfusion hg
  have hne12 : ¬ (("_" ++ natRepr (c.new_gate_id + 1) : String) = ("_" ++ natRepr (c.new_gate_id + 2))) :=
    freshName_inj _ _ (by omega)
  have hne21 : ¬ (("_" ++ natRepr (c.new_gate_id + 2) : String) = ("_" ++ natRepr (c.new_gate_id + 1))) :=
    freshName_inj _ _ (by omega)
  have hhalf : (1 : ℚ)/2 * v0 = v0 / 2 := by ring
  have e2 : c.new_gate_id + 1 + 1 = c.new_gate_id + 2 := by omega
  simp only [normalizeStep, hg, hY, hu, hv, Bool.false_eq_true, or_self, if_neg, if_false,
    getNewGateName, addGateNV_named, freshName_ne_empty, ne_eq, not_false_eq_true,
    ensure_fresh, max_self, nat_max_succ, setInitValue, isIntGate, mapContains,
    mapFind?_insert, hval, hgne1, hne12, hne21,
    e2, Option.getD_some, Option.isSome_some, ite_self, if_true, and_self,
    true_and, if_false, hhalf, not_true, not_false_eq_true]
  refine ⟨_, _, rfl, ?_, ?_, ?_, rfl⟩
  · simp [mapFind?_insert]
  · simp [mapFind?_insert, hne12]
  · simp [mapFind?_insert]

/-- C1: for every circuit and every integration gate `g = int W d(Y)`
pending in `normalize` whose second input `Y` is an integration gate with
second input `t` (Case 1), the normalization step rewrites `g` in place to
`int (U·W) d(t)` where `U` is `Y`'s integrand: a fresh product gate with
inputs `U` and `W` is created, `g`'s first input becomes that product
gate, `g`'s second input becomes `t`, `g` keeps its own name, nothing is
re-enqueued, and the value table — hence any initial value stored under
`g`'s name — is unchanged. -/
theorem C1_normalize_case1_in_place (guess : Bool) (c : GPAC) (g W Y U : String)
    (hg : mapFind? c.gates g = some (Gate.Int W Y))
    (hY : mapFind? c.gates Y = some (Gate.Int U "t")) :
    ∃ c', normalizeStep guess c g = .ok (c', []) ∧
      c'.gates = mapInsert (mapInsert c.gates ("_" ++ natRepr (c.new_gate_id + 1)) (Gate.Prod U W)) g
        (Gate.Int ("_" ++ natRepr (c.new_gate_id + 1)) "t") ∧
      c'.values = c.values ∧
      c'.output_gate = c.output_gate ∧
      mapFind? c'.values g = mapFind? c.values g := by
  simp only [normalizeStep, hg, hY, if_pos, getNewGateName, addGateNV_named, freshName_ne_empty,
    ne_eq, not_false_eq_true, ensure_fresh, max_self]
  exact ⟨_, rfl, rfl, rfl, rfl, rfl⟩

/-- Witness for C1 at the concrete circuit `exC1`. -/
theorem C1_normalize_case1_in_place_witness :
    ∃ c', normalizeStep true exC1 "g" = .ok (c', []) ∧
      c'.gates = mapInsert (mapInsert exC1.gates ("_" ++ natRepr (exC1.new_gate_id + 1)) (Gate.Prod "a" "w")) "g"
        (Gate.Int ("_" ++ natRepr (exC1.new_gate_id + 1)) "t") ∧
      c'.values = exC1.values ∧
      c'.output_gate = exC1.output_gate ∧
      mapFind? c'.values "g" = mapFind? exC1.values "g" :=
  C1_normalize_case1_in_place true exC1 "g" "w" "y" "a" (by decide) (by decide)

/-- C8: for every integration gate `g` that `normalize` splits into two
new integration gates `i1`, `i2` (Case 2b: second input a product of two
non-constant sub-expressions, or Case 3b: second input a sum of two
non-constant sub-expressions), when `g` has an initial value `v` and
init-value guessing is enabled, each of `i1` and `i2` receives initial
value `v/2` and `g`'s gate is replaced by an addition gate with inputs
`i1` and `i2`. -/
theorem C8_split_halves_init_value :
    (∀ (c : GPAC) (g W Y U V : String) (v0 : ℚ),
      mapFind? c.gates g = some (Gate.Int W Y) →
      mapFind? c.gates Y = some (Gate.Prod U V) →
      isCombinationConstantGates c (c.gates.length + 1) U = false →
      isCombinationConstantGates c (c.gates.length + 1) V = false →
      mapFind? c.values g = some v0 →
      mapFind? c.gates ("_" ++ natRepr (c.new_gate_id + 3)) = none →
      ∃ c' l, normalizeStep true c g = .ok (c', l) ∧
        mapFind? c'.gates g =
          some (Gate.Add ("_" ++ natRepr (c.new_gate_id + 3)) ("_" ++ natRepr (c.new_gate_id + 4))) ∧
        mapFind? c'.values ("_" ++ natRepr (c.new_gate_id + 3)) = some (v0 / 2) ∧
        mapFind? c'.values ("_" ++ natRepr (c.new_gate_id + 4)) = some (v0 / 2) ∧
        l = (if V ≠ "t" then ["_" ++ natRepr (c.new_gate_id + 3)] else []) ++
            (if U ≠ "t" then ["_" ++ natRepr (c.new_gate_id + 4)] else [])) ∧
    (∀ (c : GPAC) (g W Y U V : String) (v0 : ℚ),
      mapFind? c.gates g = some (Gate.Int W Y) →
      mapFind? c.gates Y = some (Gate.Add U V) →
      isCombinationConstantGates c (c.gates.length + 1) U = false →
      isCombinationConstantGates c (c.gates.length + 1) V = false →
      mapFind? c.values g = some v0 →
      mapFind? c.gates ("_" ++ natRepr (c.new_gate_id + 1)) = none →
      ∃ c' l, normalizeStep true c g = .ok (c', l) ∧
        mapFind? c'.gates g =
          some (Gate.Add ("_" ++ natRepr (c.new_gate_id + 1)) ("_" ++ natRepr (c.new_gate_id + 2))) ∧
        mapFind? c'.values ("_" ++ natRepr (c.new_gate_id + 1)) = some (v0 / 2) ∧
        mapFind? c'.values ("_" ++ natRepr (c.new_gate_id + 2)) = some (v0 / 2) ∧
        l = (if U ≠ "t" then ["_" ++ natRepr (c.new_gate_id + 1)] else []) ++
            (if V ≠ "t" then ["_" ++ natRepr (c.new_gate_id + 2)] else [])) :=
  ⟨fun c g W Y U V v0 hg hY hu hv hval hf1 =>
      normalizeStep_case2b c g W Y U V v0 hg hY hu hv hval hf1,
   fun c g W Y U V v0 hg hY hu hv hval hf1 =>
      normalizeStep_case3b c g W Y U V v0 hg hY hu hv hval hf1⟩

/-- Witness for C8 at the concrete circuits `exC8a` (Case 2b) and
`exC8b` (Case 3b). -/
theorem C8_split_halves_init_value_witness :
    (∃ c' l, normalizeStep true exC8a "g" = .ok (c', l) ∧
      mapFind? c'.gates "g" =
        some (Gate.Add ("_" ++ natRepr (exC8a.new_gate_id + 3)) ("_" ++ natRepr (exC8a.new_gate_id + 4))) ∧
      mapFind? c'.values ("_" ++ natRepr (exC8a.new_gate_id + 3)) = some ((1 : ℚ) / 2) ∧
      mapFind? c'.values ("_" ++ natRepr (exC8a.new_gate_id + 4)) = some ((1 : ℚ) / 2) ∧
      l = (if "v" ≠ "t" then ["_" ++ natRepr (exC8a.new_gate_id + 3)] else []) ++
          (if "u" ≠ "t" then ["_" ++ natRepr (exC8a.new_gate_id + 4)] else [])) ∧
    (∃ c' l, normalizeStep true exC8b "g" = .ok (c', l) ∧
      mapFind? c'.gates "g" =
        some (Gate.Add ("_" ++ natRepr (exC8b.new_gate_id + 1)) ("_" ++ natRepr (exC8b.new_gate_id + 2))) ∧
      mapFind? c'.values ("_" ++ natRepr (exC8b.new_gate_id + 1)) = some ((1 : ℚ) / 2) ∧
      mapFind? c'.values ("_" ++ natRepr (exC8b.new_gate_id + 2)) = some ((1 : ℚ) / 2) ∧
      l = (if "u" ≠ "t" then ["_" ++ natRepr (exC8b.new_gate_id + 1)] else []) ++
          (if "v" ≠ "t" then ["_" ++ natRepr (exC8b.new_gate_id + 2)] else [])) :=
  ⟨C8_split_halves_init_value.1 exC8a "g" "w" "y" "u" "v" 1 (by decide) (by decide) (by decide)
      (by decide) (by decide) (by decide),
   C8_split_halves_init_value.2 exC8b "g" "w" "y" "u" "v" 1 (by decide) (by decide) (by decide)
      (by decide) (by decide) (by decide)⟩

theorem ensure_finalized (c : GPAC) (n : String) :
    (ensureNewGateIdLargeEnough c n).finalized = c.finalized := by
  simp only [ensureNewGateIdLargeEnough]
  split
  · rfl
  · rfl
  · split
    · split
      · rfl
      · rfl
    · rfl

theorem addGateNV_finalized (c : GPAC) (n : String) (g : Gate) :
    (addGateNV c n g).1.finalized = false := by
  simp only [addGateNV, getNewGateName]
  split
  · rw [ensure_finalized]
  · rw [ensure_finalized]

theorem addAddGate_finalized (c : GPAC) (n x y : String) (v : Bool) (r : GPAC) (s : String)
    (h : addAddGate c n x y v = .ok (r, s)) : r.finalized = false := by
  unfold addAddGate at h
  split at h
  · split at h
    · exact Except.noConfusion h
    · simp only [Except.ok.injEq] at h
      have h1 := congrArg Prod.fst h
      simp only at h1
      rw [← h1]
      exact addGateNV_finalized c n (Gate.Add x y)
  · simp only [Except.ok.injEq] at h
    have h1 := congrArg Prod.fst h
    simp only at h1
    rw [← h1]
    exact addGateNV_finalized c n (Gate.Add x y)

theorem addProductGate_finalized (c : GPAC) (n x y : String) (v : Bool) (r : GPAC) (s : String)
    (h : addProductGate c n x y v = .ok (r, s)) : r.finalized = false := by
  unfold addProductGate at h
  split at h
  · split at h
    · exact Except.noConfusion h
    · simp only [Except.ok.injEq] at h
      have h1 := congrArg Prod.fst h
      simp only at h1
      rw [← h1]
      exact addGateNV_finalized c n (Gate.Prod x y)
  · simp only [Except.ok.injEq] at h
    have h1 := congrArg Prod.fst h
    simp only at h1
    rw [← h1]
    exact addGateNV_finalized c n (Gate.Prod x y)

theorem addIntGate_finalized (c : GPAC) (n x y : String) (v : Bool) (r : GPAC) (s : String)
    (h : addIntGate c n x y v = .ok (r, s)) : r.finalized = false := by
  unfold addIntGate at h
  split at h
  · split at h
    · exact Except.noConfusion h
    · split at h
      · exact Except.noConfusion h
      · simp only [Except.ok.injEq] at h
        have h1 := congrArg Prod.fst h
        simp only at h1
        rw [← h1]
        exact addGateNV_finalized c n (Gate.Int x y)
  · split at h
    · exact Except.noConfusion h
    · simp only [Except.ok.injEq] at h
      have h1 := congrArg Prod.fst h
      simp only at h1
      rw [← h1]
      exact addGateNV_finalized c n (Gate.Int x y)

theorem addConstantGate_finalized (c : GPAC) (n : String) (q : ℚ) (v : Bool) (r : GPAC) (s : String)
    (h : addConstantGate c n q v = .ok (r, s)) : r.finalized = false := by
  unfold addConstantGate at h
  split at h
  · split at h
    · exact Except.noConfusion h
    · simp only [Except.ok.injEq] at h
      have h1 := congrArg Prod.fst h
      simp only at h1
      rw [← h1]
      exact addGateNV_finalized c n (Gate.Constant q)
  · simp only [Except.ok.injEq] at h
    have h1 := congrArg Prod.fst h
    simp only at h1
    rw [← h1]
    exact addGateNV_finalized c n (Gate.Constant q)

theorem renameGate_finalized (c : GPAC) (o n : String) :
    (renameGate c o n).finalized = c.finalized := by
  simp only [renameGate]
  split <;> split <;> split <;> rfl

theorem setInitValue_finalized (c : GPAC) (g : String) (q : ℚ) :
    (setInitValue c g q).finalized =
      if isIntGate c g = true ∧ (mapFind? c.values g).getD 0 ≠ q then false else c.finalized := by
  unfold setInitValue
  by_cases hig : isIntGate c g = true
  · rw [if_neg (by simp [hig])]
    by_cases hv : (mapFind? c.values g).getD 0 ≠ q
    · simp [hig, hv]
    · simp [hig, hv]
  · rw [if_pos (by simp [hig])]
    simp [hig]

/-- C5 counterexample: the claim states that `eraseGate` (among others)
leaves `finalized = false` after running on a finalized circuit; on the
finalized `Exp` circuit, erasing the `exp` gate leaves the flag `true`. -/
theorem C5_counterexample :
    expFinal.finalized = true ∧ hasGate expFinal "exp" = true ∧
      (eraseGate expFinal "exp").finalized = true := by decide

/-- C5 (amended): the four `add*Gate` operations unconditionally leave
`finalized = false`; `setInitValue` clears the flag exactly when it
changes the stored value of an integration gate; `eraseGate`,
`renameGate`, `renameInputs` and `setOutput` leave the flag untouched. -/
theorem C5_finalized_flag_per_mutation :
    (∀ (c : GPAC) (n x y : String) (v : Bool) (r : GPAC) (s : String),
        addAddGate c n x y v = .ok (r, s) → r.finalized = false) ∧
    (∀ (c : GPAC) (n x y : String) (v : Bool) (r : GPAC) (s : String),
        addProductGate c n x y v = .ok (r, s) → r.finalized = false) ∧
    (∀ (c : GPAC) (n x y : String) (v : Bool) (r : GPAC) (s : String),
        addIntGate c n x y v = .ok (r, s) → r.finalized = false) ∧
    (∀ (c : GPAC) (n : String) (q : ℚ) (v : Bool) (r : GPAC) (s : String),
        addConstantGate c n q v = .ok (r, s) → r.finalized = false) ∧
    (∀ (c : GPAC) (g : String), (eraseGate c g).finalized = c.finalized) ∧
    (∀ (c : GPAC) (o n : String), (renameGate c o n).finalized = c.finalized) ∧
    (∀ (c : GPAC) (o n : String), (renameInputs c o n).finalized = c.finalized) ∧
    (∀ (c : GPAC) (o : String), (setOutput c o).finalized = c.finalized) ∧
    (∀ (c : GPAC) (g : String) (q : ℚ),
        (setInitValue c g q).finalized =
          if isIntGate c g = true ∧ (mapFind? c.values g).getD 0 ≠ q then false else c.finalized) :=
  ⟨addAddGate_finalized, addProductGate_finalized, addIntGate_finalized,
   addConstantGate_finalized, fun _ _ => rfl, renameGate_finalized, fun _ _ _ => rfl,
   fun _ _ => rfl, setInitValue_finalized⟩

/-- Witness for C5 at concrete circuits. -/
theorem C5_finalized_flag_per_mutation_witness :
    exAddR.1.finalized = false ∧ exProdR.1.finalized = false ∧ exIntR.1.finalized = false ∧
      exConstR.1.finalized = false ∧
      (eraseGate expFinal "exp").finalized = expFinal.finalized ∧
      (renameGate expFinal "exp" "zz").finalized = expFinal.finalized ∧
      (renameInputs expFinal "t" "exp").finalized = expFinal.finalized ∧
      (setOutput expFinal "zz").finalized = expFinal.finalized ∧
      (setInitValue expFinal "exp" 7).finalized =
        (if isIntGate expFinal "exp" = true ∧ (mapFind? expFinal.values "exp").getD 0 ≠ 7 then false
         else expFinal.finalized) :=
  ⟨C5_finalized_flag_per_mutation.1 (ExpCircuit 0) "a2" "exp" "exp" true exAddR.1 exAddR.2 (by rfl),
   C5_finalized_flag_per_mutation.2.1 (ExpCircuit 0) "p2" "exp" "exp" true exProdR.1 exProdR.2 (by rfl),
   C5_finalized_flag_per_mutation.2.2.1 (ExpCircuit 0) "i2" "exp" "exp" true exIntR.1 exIntR.2 (by rfl),
   C5_finalized_flag_per_mutation.2.2.2.1 (ExpCircuit 0) "c2" 5 true exConstR.1 exConstR.2 (by rfl),
   C5_finalized_flag_per_mutation.2.2.2.2.1 expFinal "exp",
   C5_finalized_flag_per_mutation.2.2.2.2.2.1 expFinal "exp" "zz",
   C5_finalized_flag_per_mutation.2.2.2.2.2.2.1 expFinal "t" "exp",
   C5_finalized_flag_per_mutation.2.2.2.2.2.2.2.1 expFinal "zz",
   C5_finalized_flag_per_mutation.2.2.2.2.2.2.2.2 expFinal "exp" 7⟩

theorem setInitValue_finalized_of_false (c : GPAC) (g : String) (q : ℚ)
    (h : c.finalized = false) : (setInitValue c g q).finalized = false := by
  rw [setInitValue_finalized]
  split
  · rfl
  · exact h

theorem normalizeStep_finalized (guess : Bool) (c : GPAC) (g : String) (c' : GPAC)
    (l : List String) (h : normalizeStep guess c g = .ok (c', l))
    (hc : c.finalized = false) : c'.finalized = false := by
  unfold normalizeStep at h
  repeat' split at h
  all_goals try exact Except.noConfusion h
  all_goals try (rw [ite_eq_iff] at h; rcases h with ⟨hP1, h⟩ | ⟨hP1, h⟩)
  all_goals try (rw [ite_eq_iff] at h; rcases h with ⟨hP2, h⟩ | ⟨hP2, h⟩)
  all_goals first
    | exact Except.noConfusion h
    | (simp only [Except.ok.injEq, Prod.mk.injEq] at h
       rw [← h.1]
       simp [apply_ite, setInitValue_finalized, addGateNV_finalized, ite_self, hc])

theorem normalizeLoop_finalized (guess : Bool) :
    ∀ (fuel : ℕ) (c : GPAC) (q : List String) (c' : GPAC),
      normalizeLoop guess fuel c q = .ok c' → c.finalized = false → c'.finalized = false := by
  intro fuel
  induction fuel with
  | zero =>
    intro c q c' h hc
    unfold normalizeLoop at h
    split at h
    · simp only [Except.ok.injEq] at h
      rw [← h]
      exact hc
    · exact Except.noConfusion h
  | succ n ih =>
    intro c q c' h hc
    unfold normalizeLoop at h
    split at h
    · simp only [Except.ok.injEq] at h
      rw [← h]
      exact hc
    · split at h
      · exact Except.noConfusion h
      · exact ih _ _ _ h (normalizeStep_finalized _ _ _ _ _ (by assumption) hc)

theorem normalize_finalized (c : GPAC) (guess : Bool) (fuel : ℕ) (c' : GPAC)
    (h : normalize c guess fuel = .ok c') (hc : c.finalized = false) : c'.finalized = false := by
  unfold normalize at h
  rw [if_neg (by simp [hc])] at h
  exact normalizeLoop_finalized guess fuel c _ c' h hc

theorem foldl_finalized {α : Type} (f : GPAC → α → GPAC)
    (hf : ∀ acc a, (f acc a).finalized = acc.finalized) :
    ∀ (l : List α) (c : GPAC), (l.foldl f c).finalized = c.finalized := by
  intro l
  induction l with
  | nil => intro c; rfl
  | cons a rest ih =>
    intro c
    rw [List.foldl_cons, ih, hf]

theorem foldConstants_finalized (c : GPAC) : (foldConstants c).finalized = c.finalized := by
  unfold foldConstants
  apply foldl_finalized
  intro acc a
  dsimp only
  split
  · rfl
  · rfl

theorem removeUseless_finalized (c : GPAC) : (removeUseless c).finalized = c.finalized := by
  simp only [removeUseless]
  exact foldl_finalized (fun acc g => eraseGate acc g) (fun _ _ => rfl) _ _

theorem applyNNDelete_finalized (c : GPAC) (nn : SMap String) :
    (applyNNDelete c nn).finalized = c.finalized := by
  unfold applyNNDelete
  apply foldl_finalized
  intro acc a
  dsimp only
  split
  · split
    · rfl
    · rfl
  · rfl

theorem cseLoop_finalized (adds prods ints : List String) :
    ∀ (fuel : ℕ) (c : GPAC) (nn : SMap String),
      (cseLoop adds prods ints fuel c nn).finalized = c.finalized := by
  intro fuel
  induction fuel with
  | zero => intro c nn; rfl
  | succ n ih =>
    intro c nn
    unfold cseLoop
    dsimp only
    split
    · rfl
    · rw [ih, applyNNDelete_finalized]
      rfl

theorem deadGateElim_finalized :
    ∀ (fuel : ℕ) (c : GPAC), (deadGateElim fuel c).finalized = c.finalized := by
  intro fuel
  induction fuel with
  | zero => intro c; rfl
  | succ n ih =>
    intro c
    unfold deadGateElim
    dsimp only
    split
    · rfl
    · rw [ih]
      exact foldl_finalized eraseGate (fun _ _ => rfl) _ _

theorem renameInputsNN_finalized (c : GPAC) (nn : SMap String) :
    (renameInputsNN c nn).finalized = c.finalized := rfl

theorem canonicalize_finalized (c : GPAC) : (canonicalize c).finalized = c.finalized := rfl

theorem simplify_finalized (c : GPAC) (b : Bool) : (simplify c b).finalized = c.finalized := by
  unfold simplify
  split
  · rfl
  · dsimp only
    split
    · rw [renameInputsNN_finalized, applyNNDelete_finalized, canonicalize_finalized,
        removeUseless_finalized, foldConstants_finalized]
    · rw [deadGateElim_finalized, cseLoop_finalized, renameInputsNN_finalized,
        applyNNDelete_finalized, canonicalize_finalized, removeUseless_finalized,
        foldConstants_finalized]

theorem validate_ok_eq (c c' : GPAC) (h : validate c = .ok c') : c' = c := by
  unfold validate at h
  split at h
  · simp only [Except.ok.injEq] at h
    exact h.symm
  · split at h
    · exact Except.noConfusion h
    · split at h
      · exact Except.noConfusion h
      · split at h
        · exact Except.noConfusion h
        · simp only [Except.ok.injEq] at h
          exact h.symm

theorem validateOneGate_int_t (c : GPAC) (n x y : String)
    (h : validateOneGate c n x y = .ok ()) (hint : isIntGate c n = true) : y = "t" := by
  unfold validateOneGate at h
  split at h
  · exact Except.noConfusion h
  · split at h
    · exact Except.noConfusion h
    · split at h
      · exact Except.noConfusion h
      · split at h
        · exact Except.noConfusion h
        · rename_i hcheck
          by_contra hyt
          exact hcheck ⟨hint, hyt⟩

theorem validateGatesList_int_t (c : GPAC) :
    ∀ (L : List (String × Gate)), validateGatesList c L = .ok () →
      ∀ (n x y : String), (n, Gate.Int x y) ∈ L →
        mapFind? c.gates n = some (Gate.Int x y) → y = "t" := by
  intro L
  induction L with
  | nil =>
    intro _ n x y hmem _
    exact absurd hmem (List.not_mem_nil _)
  | cons p rest ih =>
    intro h n x y hmem hlook
    obtain ⟨m, g⟩ := p
    rcases List.mem_cons.mp hmem with hhead | htail
    · injection hhead with hm hg
      subst hm
      subst hg
      unfold validateGatesList at h
      split at h
      · exact Except.noConfusion h
      · rename_i a hok
        have hbin : binInputs c n = some (x, y) := by
          simp [binInputs, hlook]
        rw [hbin] at hok
        simp only [Option.map_some', Option.getD_some] at hok
        exact validateOneGate_int_t c n x y hok (by simp [isIntGate, hlook])
    · have hrest : validateGatesList c rest = .ok () := by
        cases g with
        | Constant v =>
          unfold validateGatesList at h
          exact h
        | Add a b =>
          unfold validateGatesList at h
          split at h
          · exact Except.noConfusion h
          · exact h
        | Prod a b =>
          unfold validateGatesList at h
          split at h
          · exact Except.noConfusion h
          · exact h
        | Int a b =>
          unfold validateGatesList at h
          split at h
          · exact Except.noConfusion h
          · exact h
      exact ih hrest n x y htail hlook

theorem checkInitValuesList_mem (c : GPAC) :
    ∀ (L : List (String × Gate)), checkInitValuesList c L = .ok () →
      ∀ (n x : String), (n, Gate.Int x "t") ∈ L → mapContains c.values n = true := by
  intro L
  induction L with
  | nil =>
    intro _ n x hmem
    exact absurd hmem (List.not_mem_nil _)
  | cons p rest ih =>
    intro h n x hmem
    obtain ⟨m, g⟩ := p
    rcases List.mem_cons.mp hmem with hhead | htail
    · injection hhead with hm hg
      subst hm
      subst hg
      unfold checkInitValuesList at h
      split at h
      · exact Except.noConfusion h
      · rename_i hcond
        by_contra hcont
        exact hcond ⟨rfl, by simpa using hcont⟩
    · have hrest : checkInitValuesList c rest = .ok () := by
        cases g with
        | Constant v =>
          unfold checkInitValuesList at h
          exact h
        | Add a b =>
          unfold checkInitValuesList at h
          exact h
        | Prod a b =>
          unfold checkInitValuesList at h
          exact h
        | Int a b =>
          unfold checkInitValuesList at h
          split at h
          · exact Except.noConfusion h
          · exact h
      exact ih hrest n x htail

theorem validate_ok_checks (c c' : GPAC) (h : validate c = .ok c') (hc : c.finalized = false) :
    validateGatesList c c.gates = .ok () := by
  unfold validate at h
  rw [if_neg (by simp [hc])] at h
  split at h
  · exact Except.noConfusion h
  · rename_i u heq
    cases u
    exact heq

theorem finalize_ok_finalized (c : GPAC) (s : Bool) (f : ℕ) (c' : GPAC)
    (h : finalize c s f = .ok c') : c'.finalized = true := by
  unfold finalize at h
  by_cases h0 : c.finalized = true
  · rw [if_pos h0] at h
    simp only [Except.ok.injEq] at h
    rw [← h]
    exact h0
  · rw [if_neg h0] at h
    cases hN : normalize c true f with
    | error e => rw [hN] at h; exact Except.noConfusion h
    | ok c1 =>
      rw [hN] at h
      dsimp only at h
      by_cases h1 : c1.finalized = true
      · rw [if_pos h1] at h
        simp only [Except.ok.injEq] at h
        rw [← h]
        exact h1
      · rw [if_neg h1] at h
        cases hV : validate (if s then simplify c1 false else c1) with
        | error e => rw [hV] at h; exact Except.noConfusion h
        | ok c3 =>
          rw [hV] at h
          dsimp only at h
          cases hI : checkInitValuesList c3 c3.gates with
          | error e => rw [hI] at h; exact Except.noConfusion h
          | ok u =>
            cases u
            rw [hI] at h
            dsimp only at h
            simp only [Except.ok.injEq] at h
            rw [← h]

theorem keepIntValue_int (gates : SMap Gate) (n x y : String)
    (h : mapFind? gates n = some (Gate.Int x y)) : keepIntValue gates n = true := by
  unfold keepIntValue
  rw [h]

/-- C2 counterexample: a circuit whose `finalized` flag is `true` can contain
an integration gate whose second input is not `t`, and `finalize` still
returns it successfully unchanged (the early return on the `finalized` flag
skips validation), contradicting the claim for every successfully finalized
circuit. -/
theorem C2_counterexample :
    c2bad.finalized = true ∧
    mapFind? c2bad.gates "exp" = some (Gate.Int "exp" "exp") ∧
    finalize c2bad true 9 = .ok c2bad :=
  ⟨by decide, by decide, by rfl⟩

/-- C2 (amended): if `finalize` succeeds on a circuit whose `finalized` flag
is not already set, then in the result every integration gate has `t` as its
second input and an entry in the initial-values table. -/
theorem C2_finalize_int_gates (c : GPAC) (s : Bool) (f : ℕ) (c' : GPAC)
    (hc : c.finalized = false) (h : finalize c s f = .ok c') :
    ∀ n x y, mapFind? c'.gates n = some (Gate.Int x y) →
      y = "t" ∧ mapContains c'.values n = true := by
  unfold finalize at h
  rw [if_neg (by simp [hc])] at h
  cases hN : normalize c true f with
  | error e => rw [hN] at h; exact Except.noConfusion h
  | ok c1 =>
    rw [hN] at h
    dsimp only at h
    have hc1 : c1.finalized = false := normalize_finalized c true f c1 hN hc
    rw [if_neg (by simp [hc1])] at h
    cases hV : validate (if s then simplify c1 false else c1) with
    | error e => rw [hV] at h; exact Except.noConfusion h
    | ok c3 =>
      rw [hV] at h
      dsimp only at h
      have hc2 : (if s then simplify c1 false else c1).finalized = false := by
        cases s
        · simpa using hc1
        · simpa [simplify_finalized] using hc1
      have hVG : validateGatesList c3 c3.gates = .ok () := by
        rw [validate_ok_eq _ _ hV]
        exact validate_ok_checks _ _ hV hc2
      cases hI : checkInitValuesList c3 c3.gates with
      | error e => rw [hI] at h; exact Except.noConfusion h
      | ok u =>
        cases u
        rw [hI] at h
        dsimp only at h
        simp only [Except.ok.injEq] at h
        subst h
        intro n x y hfind
        dsimp only at hfind
        have hmem := mapFind?_mem hfind
        have hyt : y = "t" := validateGatesList_int_t c3 c3.gates hVG n x y hmem hfind
        subst hyt
        refine ⟨rfl, ?_⟩
        have hval : mapContains c3.values n = true :=
          checkInitValuesList_mem c3 c3.gates hI n x hmem
        have hkeep : keepIntValue c3.gates n = true := keepIntValue_int c3.gates n x "t" hfind
        have h1 := mapFind?_filter_key c3.values (keepIntValue c3.gates) n
        rw [hkeep, if_pos rfl] at h1
        unfold mapContains at hval ⊢
        dsimp only
        rw [h1]
        exact hval

theorem C2_finalize_int_gates_witness :
    (ExpCircuit 0).finalized = false ∧
    finalize (ExpCircuit 0) true 9 = .ok expFinal ∧
    ("t" = "t" ∧ mapContains expFinal.values "exp" = true) :=
  ⟨by decide, by rfl,
    C2_finalize_int_gates (ExpCircuit 0) true 9 expFinal (by decide) (by rfl)
      "exp" "exp" "t" (by decide)⟩

/-- C3: `finalize` is idempotent — once `finalize` has succeeded, running it
again (with any simplification flag and fuel) returns the same circuit
unchanged via the early return on the `finalized` flag. -/
theorem C3_finalize_idempotent (c : GPAC) (s : Bool) (f : ℕ) (c' : GPAC) (s' : Bool) (f' : ℕ)
    (h : finalize c s f = .ok c') : finalize c' s' f' = .ok c' := by
  have hfin := finalize_ok_finalized c s f c' h
  unfold finalize
  rw [if_pos hfin]

theorem C3_finalize_idempotent_witness :
    finalize (ExpCircuit 0) true 9 = .ok expFinal ∧ finalize expFinal false 5 = .ok expFinal :=
  ⟨by rfl, C3_finalize_idempotent (ExpCircuit 0) true 9 expFinal false 5 (by rfl)⟩

/-- C4 counterexample: the output value of the constant-zero circuit at
`t = 0` is `0`, yet `Inverse` returns a circuit successfully instead of
failing with an error (the source computes `1./init` without any zero
check). -/
theorem C4_counterexample :
    computeValue (copyCircuit (ConstantCircuit 0 0)) 0 = some 0 ∧
    Inverse (ConstantCircuit 0 0) = .ok invZero :=
  ⟨by decide, by rfl⟩

/-- C4 (amended): when the presimulated output value `v` at `t = 0` is
nonzero, `Inverse` (if it succeeds) returns a circuit whose output gate is
a new integration gate over `t` with initial value `1 / v`. -/
theorem C4_inverse_init_value (c : GPAC) (v : ℚ) (c' : GPAC)
    (hv : computeValue (copyCircuit c) 0 = some v) (hv0 : v ≠ 0)
    (h : Inverse c = .ok c') :
    ∃ p, mapFind? c'.gates c'.output_gate = some (Gate.Int p "t") ∧
      mapFind? c'.values c'.output_gate = some (1 / v) := by
  simp only [Inverse] at h
  rw [hv] at h
  dsimp only at h
  set rn := renameCircuit (copyCircuit c) ((copyCircuit c).circuit_name ++ "_inv") with hrn
  cases hD : DerivateGate (rn.gates.length + 1) rn rn.output_gate with
  | error e => rw [hD] at h; exact Except.noConfusion h
  | ok pr =>
    obtain ⟨r, w⟩ := pr
    rw [hD] at h
    dsimp only at h
    have e2 : r.new_gate_id + 1 + 1 = r.new_gate_id + 2 := by omega
    have e3 : r.new_gate_id + 2 + 1 = r.new_gate_id + 3 := by omega
    have e4 : r.new_gate_id + 3 + 1 = r.new_gate_id + 4 := by omega
    have e5 : r.new_gate_id + 4 + 1 = r.new_gate_id + 5 := by omega
    have hm : (r.new_gate_id + 5) ⊔ (r.new_gate_id + 3) = r.new_gate_id + 5 := by omega
    have hne43 : ¬ (("_" ++ natRepr (r.new_gate_id + 4) : String) = ("_" ++ natRepr (r.new_gate_id + 3))) :=
      freshName_inj _ _ (by omega)
    have hne45 : ¬ (("_" ++ natRepr (r.new_gate_id + 4) : String) = ("_" ++ natRepr (r.new_gate_id + 5))) :=
      freshName_inj _ _ (by omega)
    simp only [addGateNV_fresh, getNewGateName, addGateNV_named, freshName_ne_empty, ne_eq,
      not_false_eq_true, ensure_fresh, setInitValue, isIntGate, setOutput, mapFind?_insert,
      e2, e3, e4, e5, hm, hne43, hne45, if_true, if_false, ite_self, Option.getD_some,
      Option.isSome_some, not_true, not_false_iff, Except.ok.injEq] at h
    subst h
    refine ⟨"_" ++ natRepr (r.new_gate_id + 3), ?_, ?_⟩
    · simp [mapFind?_insert, hne43, hne45]
    · simp [mapFind?_insert]

theorem C4_inverse_init_value_witness :
    computeValue (copyCircuit (ConstantCircuit 2 0)) 0 = some 2 ∧ (2 : ℚ) ≠ 0 ∧
      (∃ p, mapFind? invTwo.gates invTwo.output_gate = some (Gate.Int p "t") ∧
        mapFind? invTwo.values invTwo.output_gate = some (1 / 2)) :=
  ⟨by decide, by decide,
    C4_inverse_init_value (ConstantCircuit 2 0) 2 invTwo (by decide) (by decide) (by rfl)⟩

theorem ensure_gates (c : GPAC) (name : String) :
    (ensureNewGateIdLargeEnough c name).gates = c.gates := by
  simp only [ensureNewGateIdLargeEnough]
  repeat' split
  all_goals rfl

theorem ensure_values (c : GPAC) (name : String) :
    (ensureNewGateIdLargeEnough c name).values = c.values := by
  simp only [ensureNewGateIdLargeEnough]
  repeat' split
  all_goals rfl

theorem addGateNV_gates_fst (c : GPAC) (m : String) (g : Gate) (hm : m ≠ "") :
    ((addGateNV c m g).1).gates = mapInsert c.gates m g := by
  rw [addGateNV_named c m g hm]
  exact ensure_gates _ _

theorem addGateNV_values_fst (c : GPAC) (m : String) (g : Gate) :
    ((addGateNV c m g).1).values = c.values := by
  by_cases hm : m = ""
  · subst hm
    rw [addGateNV_fresh]
  · rw [addGateNV_named c m g hm]
    exact ensure_values _ _

theorem setInitValue_gates (c : GPAC) (g : String) (q : ℚ) :
    (setInitValue c g q).gates = c.gates := by
  unfold setInitValue
  split
  · rfl
  · rfl

theorem setInitValue_values_other (c : GPAC) (g : String) (q : ℚ) (n : String) (hn : n ≠ g) :
    mapFind? (setInitValue c g q).values n = mapFind? c.values n := by
  unfold setInitValue
  split
  · rfl
  · dsimp only
    rw [mapFind?_insert, if_neg hn]

theorem copyIntoStep_gates_other (src acc : GPAC) (m n : String) (hm : m ≠ "") (hn : n ≠ m) :
    mapFind? (copyIntoStep src acc m).gates n = mapFind? acc.gates n := by
  unfold copyIntoStep
  cases hg : mapFind? src.gates m with
  | none =>
    dsimp only
    split
    · rw [setInitValue_gates]
    · rfl
  | some g =>
    dsimp only
    split
    · rw [setInitValue_gates, addGateNV_gates_fst acc m g hm, mapFind?_insert, if_neg hn]
    · rw [addGateNV_gates_fst acc m g hm, mapFind?_insert, if_neg hn]

theorem copyIntoStep_gates_self (src acc : GPAC) (m : String) (g : Gate) (hm : m ≠ "")
    (hg : mapFind? src.gates m = some g) :
    mapFind? (copyIntoStep src acc m).gates m = some g := by
  unfold copyIntoStep
  rw [hg]
  dsimp only
  split
  · rw [setInitValue_gates, addGateNV_gates_fst acc m g hm, mapFind?_insert, if_pos rfl]
  · rw [addGateNV_gates_fst acc m g hm, mapFind?_insert, if_pos rfl]

theorem copyIntoStep_values_other (src acc : GPAC) (m n : String) (hn : n ≠ m) :
    mapFind? (copyIntoStep src acc m).values n = mapFind? acc.values n := by
  unfold copyIntoStep
  cases hg : mapFind? src.gates m with
  | none =>
    dsimp only
    split
    · rw [setInitValue_values_other _ _ _ _ hn]
    · rfl
  | some g =>
    dsimp only
    split
    · rw [setInitValue_values_other _ _ _ _ hn, addGateNV_values_fst]
    · rw [addGateNV_values_fst]

theorem copyIntoStep_values_int_some (src acc : GPAC) (m x y : String) (v : ℚ) (hm : m ≠ "")
    (hg : mapFind? src.gates m = some (Gate.Int x y)) (hv : mapFind? src.values m = some v) :
    mapFind? (copyIntoStep src acc m).values m = some v := by
  unfold copyIntoStep
  rw [hg]
  dsimp only
  have hcond : (isIntGate src m && mapContains src.values m) = true := by
    simp [isIntGate, hg, mapContains, hv]
  rw [hcond, if_pos rfl, hv]
  simp only [Option.getD_some]
  have hint : isIntGate ((addGateNV acc m (Gate.Int x y)).1) m = true := by
    simp [isIntGate, addGateNV_gates_fst acc m (Gate.Int x y) hm, mapFind?_insert]
  unfold setInitValue
  rw [if_neg (by simp [hint])]
  dsimp only
  rw [mapFind?_insert, if_pos rfl]

theorem copyIntoStep_values_int_none (src acc : GPAC) (m x y : String)
    (hg : mapFind? src.gates m = some (Gate.Int x y)) (hv : mapFind? src.values m = none) :
    mapFind? (copyIntoStep src acc m).values m = mapFind? acc.values m := by
  unfold copyIntoStep
  rw [hg]
  dsimp only
  have hcond : (isIntGate src m && mapContains src.values m) = false := by
    simp [mapContains, hv]
  rw [hcond, if_neg (by simp)]
  rw [addGateNV_values_fst]

theorem copyInto_fold_gates_other (src : GPAC) :
    ∀ (L : List (String × Gate)) (acc : GPAC) (n : String),
      (∀ p ∈ L, p.1 ≠ "") → (∀ p ∈ L, p.1 ≠ n) →
      mapFind? (L.foldl (fun a p => copyIntoStep src a p.1) acc).gates n =
        mapFind? acc.gates n := by
  intro L
  induction L with
  | nil => intro acc n _ _; rfl
  | cons p rest ih =>
    intro acc n h1 h2
    rw [List.foldl_cons]
    rw [ih _ n (fun q hq => h1 q (List.mem_cons_of_mem _ hq))
      (fun q hq => h2 q (List.mem_cons_of_mem _ hq))]
    exact copyIntoStep_gates_other src acc p.1 n (h1 p (List.mem_cons_self _ _))
      (Ne.symm (h2 p (List.mem_cons_self _ _)))

theorem copyInto_fold_gates_mem (src : GPAC) :
    ∀ (L : List (String × Gate)) (acc : GPAC) (n : String) (g : Gate),
      (∀ p ∈ L, p.1 ≠ "") → (∃ q ∈ L, q.1 = n) → mapFind? src.gates n = some g →
      mapFind? (L.foldl (fun a p => copyIntoStep src a p.1) acc).gates n = some g := by
  intro L
  induction L with
  | nil =>
    intro acc n g _ hex _
    obtain ⟨q, hq, _⟩ := hex
    exact absurd hq (List.not_mem_nil _)
  | cons p rest ih =>
    intro acc n g h1 hex hg
    rw [List.foldl_cons]
    by_cases hrest : ∃ q ∈ rest, q.1 = n
    · exact ih _ n g (fun q hq => h1 q (List.mem_cons_of_mem _ hq)) hrest hg
    · have hpn : p.1 = n := by
        obtain ⟨q, hq, hqn⟩ := hex
        rcases List.mem_cons.mp hq with h | h
        · exact h ▸ hqn
        · exact absurd ⟨q, h, hqn⟩ hrest
      have hothers : ∀ q ∈ rest, q.1 ≠ n := fun q hq hqn => hrest ⟨q, hq, hqn⟩
      rw [copyInto_fold_gates_other src rest _ n
        (fun q hq => h1 q (List.mem_cons_of_mem _ hq)) hothers]
      have hm : p.1 ≠ "" := h1 p (List.mem_cons_self _ _)
      rw [hpn] at hm
      rw [hpn]
      exact copyIntoStep_gates_self src acc n g hm hg

theorem copyInto_fold_values_other (src : GPAC) :
    ∀ (L : List (String × Gate)) (acc : GPAC) (n : String),
      (∀ p ∈ L, p.1 ≠ n) →
      mapFind? (L.foldl (fun a p => copyIntoStep src a p.1) acc).values n =
        mapFind? acc.values n := by
  intro L
  induction L with
  | nil => intro acc n _; rfl
  | cons p rest ih =>
    intro acc n h2
    rw [List.foldl_cons]
    rw [ih _ n (fun q hq => h2 q (List.mem_cons_of_mem _ hq))]
    exact copyIntoStep_values_other src acc p.1 n (Ne.symm (h2 p (List.mem_cons_self _ _)))

theorem copyInto_fold_values_int_some (src : GPAC) :
    ∀ (L : List (String × Gate)) (acc : GPAC) (n x y : String) (v : ℚ),
      (∀ p ∈ L, p.1 ≠ "") → (∃ q ∈ L, q.1 = n) →
      mapFind? src.gates n = some (Gate.Int x y) → mapFind? src.values n = some v →
      mapFind? (L.foldl (fun a p => copyIntoStep src a p.1) acc).values n = some v := by
  intro L
  induction L with
  | nil =>
    intro acc n x y v _ hex _ _
    obtain ⟨q, hq, _⟩ := hex
    exact absurd hq (List.not_mem_nil _)
  | cons p rest ih =>
    intro acc n x y v h1 hex hg hv
    rw [List.foldl_cons]
    by_cases hrest : ∃ q ∈ rest, q.1 = n
    · exact ih _ n x y v (fun q hq => h1 q (List.mem_cons_of_mem _ hq)) hrest hg hv
    · have hpn : p.1 = n := by
        obtain ⟨q, hq, hqn⟩ := hex
        rcases List.mem_cons.mp hq with h | h
        · exact h ▸ hqn
        · exact absurd ⟨q, h, hqn⟩ hrest
      have hothers : ∀ q ∈ rest, q.1 ≠ n := fun q hq hqn => hrest ⟨q, hq, hqn⟩
      rw [copyInto_fold_values_other src rest _ n hothers]
      have hm : p.1 ≠ "" := h1 p (List.mem_cons_self _ _)
      rw [hpn] at hm
      rw [hpn]
      exact copyIntoStep_values_int_some src acc n x y v hm hg hv

theorem copyInto_fold_values_int_none (src : GPAC) :
    ∀ (L : List (String × Gate)) (acc : GPAC) (n x y : String),
      mapFind? src.gates n = some (Gate.Int x y) → mapFind? src.values n = none →
      mapFind? (L.foldl (fun a p => copyIntoStep src a p.1) acc).values n =
        mapFind? acc.values n := by
  intro L
  induction L with
  | nil => intro acc n x y _ _; rfl
  | cons p rest ih =>
    intro acc n x y hg hv
    rw [List.foldl_cons, ih _ n x y hg hv]
    by_cases hpn : p.1 = n
    · rw [hpn]
      exact copyIntoStep_values_int_none src acc n x y hg hv
    · exact copyIntoStep_values_other src acc p.1 n (Ne.symm hpn)

theorem copyCircuit_output (c : GPAC) : (copyCircuit c).output_gate = c.output_gate := rfl

theorem copyCircuit_gates_eq (c : GPAC) :
    (copyCircuit c).gates =
      (copyInto
        { circuit_name := "", gates := [], output_gate := "", validation := c.validation,
          block := c.block, finalized := false, values := [], int_gates := [],
          new_gate_id := c.new_gate_id } c).gates := by
  simp only [copyCircuit]
  split
  · rfl
  · split
    · rfl
    · rfl

theorem copyCircuit_values_eq (c : GPAC) :
    (copyCircuit c).values =
      (copyInto
        { circuit_name := "", gates := [], output_gate := "", validation := c.validation,
          block := c.block, finalized := false, values := [], int_gates := [],
          new_gate_id := c.new_gate_id } c).values := by
  simp only [copyCircuit]
  split
  · rfl
  · split
    · rfl
    · rfl

theorem copyCircuit_gates_find (c : GPAC) (hcons : mapConsistent c.gates = true)
    (hne : ∀ p ∈ c.gates, p.1 ≠ "") (n : String) :
    mapFind? (copyCircuit c).gates n = mapFind? c.gates n := by
  rw [copyCircuit_gates_eq]
  unfold copyInto
  by_cases hn : ∃ q ∈ c.gates, q.1 = n
  · obtain ⟨q, hq, hqn⟩ := hn
    have hfind : mapFind? c.gates q.1 = some q.2 := mapConsistent_find hcons hq
    rw [hqn] at hfind
    rw [copyInto_fold_gates_mem c c.gates _ n q.2 hne ⟨q, hq, hqn⟩ hfind, hfind]
  · have h2 : ∀ p ∈ c.gates, p.1 ≠ n := fun p hp hpn => hn ⟨p, hp, hpn⟩
    rw [copyInto_fold_gates_other c c.gates _ n hne h2]
    have hnone : mapFind? c.gates n = none := by
      apply mapFind?_eq_none_of_not_mem_keys
      intro hmem
      obtain ⟨p, hp, hpn⟩ := List.mem_map.mp hmem
      exact hn ⟨p, hp, hpn⟩
    rw [hnone]
    rfl

theorem copyCircuit_values_find (c : GPAC) (hne : ∀ p ∈ c.gates, p.1 ≠ "")
    (n x y : String) (hg : mapFind? c.gates n = some (Gate.Int x y)) :
    mapFind? (copyCircuit c).values n = mapFind? c.values n := by
  rw [copyCircuit_values_eq]
  unfold copyInto
  have hex : ∃ q ∈ c.gates, q.1 = n := ⟨(n, Gate.Int x y), mapFind?_mem hg, rfl⟩
  cases hv : mapFind? c.values n with
  | some v =>
    rw [copyInto_fold_values_int_some c c.gates _ n x y v hne hex hg hv]
  | none =>
    rw [copyInto_fold_values_int_none c c.gates _ n x y hg hv]
    rfl

/-- C6: composition short-circuits on identity — if `B`'s output is `t` the
result is a copy of `A`, otherwise if `A`'s output is `t` the result is a
copy of `B`; the copy is a structural clone: same output gate, the same gate
under every name, and the same initial value on every integration gate.  (On
well-formed circuits: gate names non-empty and the gate map consistent.) -/
theorem C6_compose_identity (a b : GPAC) (f : ℕ)
    (hao : a.output_gate ≠ "") (hbo : b.output_gate ≠ "")
    (hca : mapConsistent a.gates = true) (hna : ∀ p ∈ a.gates, p.1 ≠ "")
    (hcb : mapConsistent b.gates = true) (hnb : ∀ p ∈ b.gates, p.1 ≠ "") :
    (b.output_gate = "t" →
      compose a b f = .ok (copyCircuit a) ∧
      (copyCircuit a).output_gate = a.output_gate ∧
      (∀ n, mapFind? (copyCircuit a).gates n = mapFind? a.gates n) ∧
      (∀ n x y, mapFind? a.gates n = some (Gate.Int x y) →
        mapFind? (copyCircuit a).values n = mapFind? a.values n)) ∧
    (b.output_gate ≠ "t" → a.output_gate = "t" →
      compose a b f = .ok (copyCircuit b) ∧
      (copyCircuit b).output_gate = b.output_gate ∧
      (∀ n, mapFind? (copyCircuit b).gates n = mapFind? b.gates n) ∧
      (∀ n x y, mapFind? b.gates n = some (Gate.Int x y) →
        mapFind? (copyCircuit b).values n = mapFind? b.values n)) := by
  constructor
  · intro hbt
    refine ⟨?_, copyCircuit_output a, copyCircuit_gates_find a hca hna,
      fun n x y hg => copyCircuit_values_find a hna n x y hg⟩
    unfold compose
    rw [if_neg (by simp [hao, hbo]), if_pos hbt]
  · intro hbt hat
    refine ⟨?_, copyCircuit_output b, copyCircuit_gates_find b hcb hnb,
      fun n x y hg => copyCircuit_values_find b hnb n x y hg⟩
    unfold compose
    rw [if_neg (by simp [hao, hbo]), if_neg hbt, if_pos hat]

theorem C6_compose_identity_witness :
    (ExpCircuit 0).output_gate ≠ "" ∧ idCircuit.output_gate = "t" ∧
    compose (ExpCircuit 0) idCircuit 5 = .ok (copyCircuit (ExpCircuit 0)) :=
  ⟨by decide, by decide,
    ((C6_compose_identity (ExpCircuit 0) idCircuit 5 (by decide) (by decide) (by decide)
      (by decide) (by decide) (by decide)).1 (by decide)).1⟩

theorem findFirstConstant_mem :
    ∀ (m : SMap Gate) (c : ℚ) (g : String),
      findFirstConstant m c = some g → (g, Gate.Constant c) ∈ m := by
  intro m
  induction m with
  | nil => intro c g h; exact Option.noConfusion h
  | cons p rest ih =>
    intro c g h
    obtain ⟨n, gate⟩ := p
    cases gate with
    | Constant v =>
      unfold findFirstConstant at h
      split at h
      · rename_i hvc
        injection h with h
        subst h
        subst hvc
        exact List.mem_cons_self _ _
      · exact List.mem_cons_of_mem _ (ih c g h)
    | Add x y =>
      unfold findFirstConstant at h
      exact List.mem_cons_of_mem _ (ih c g h)
    | Prod x y =>
      unfold findFirstConstant at h
      exact List.mem_cons_of_mem _ (ih c g h)
    | Int x y =>
      unfold findFirstConstant at h
      exact List.mem_cons_of_mem _ (ih c g h)

/-- C9: `A + c` and `A · c` reuse an existing constant gate holding `c` when
one exists — only a fresh addition/product gate is added and made the
output, all other gates unchanged; otherwise exactly one new constant gate
holding `c` and the fresh addition/product gate are added, the latter
becoming the output. -/
theorem C9_scalar_constant_reuse (a : GPAC) (c : ℚ) :
    (∀ g, findFirstConstant (copyCircuit a).gates c = some g →
      (g, Gate.Constant c) ∈ (copyCircuit a).gates ∧
      (addConstantOp a c).output_gate = "_" ++ natRepr ((copyCircuit a).new_gate_id + 1) ∧
      mapFind? (addConstantOp a c).gates ("_" ++ natRepr ((copyCircuit a).new_gate_id + 1)) =
        some (Gate.Add (copyCircuit a).output_gate g) ∧
      (∀ n, n ≠ "_" ++ natRepr ((copyCircuit a).new_gate_id + 1) →
        mapFind? (addConstantOp a c).gates n = mapFind? (copyCircuit a).gates n) ∧
      (mulConstantOp a c).output_gate = "_" ++ natRepr ((copyCircuit a).new_gate_id + 1) ∧
      mapFind? (mulConstantOp a c).gates ("_" ++ natRepr ((copyCircuit a).new_gate_id + 1)) =
        some (Gate.Prod (copyCircuit a).output_gate g) ∧
      (∀ n, n ≠ "_" ++ natRepr ((copyCircuit a).new_gate_id + 1) →
        mapFind? (mulConstantOp a c).gates n = mapFind? (copyCircuit a).gates n)) ∧
    (findFirstConstant (copyCircuit a).gates c = none →
      (addConstantOp a c).output_gate = "_" ++ natRepr ((copyCircuit a).new_gate_id + 2) ∧
      mapFind? (addConstantOp a c).gates ("_" ++ natRepr ((copyCircuit a).new_gate_id + 1)) =
        some (Gate.Constant c) ∧
      mapFind? (addConstantOp a c).gates ("_" ++ natRepr ((copyCircuit a).new_gate_id + 2)) =
        some (Gate.Add (copyCircuit a).output_gate ("_" ++ natRepr ((copyCircuit a).new_gate_id + 1))) ∧
      (∀ n, n ≠ "_" ++ natRepr ((copyCircuit a).new_gate_id + 1) →
        n ≠ "_" ++ natRepr ((copyCircuit a).new_gate_id + 2) →
        mapFind? (addConstantOp a c).gates n = mapFind? (copyCircuit a).gates n) ∧
      (mulConstantOp a c).output_gate = "_" ++ natRepr ((copyCircuit a).new_gate_id + 2) ∧
      mapFind? (mulConstantOp a c).gates ("_" ++ natRepr ((copyCircuit a).new_gate_id + 1)) =
        some (Gate.Constant c) ∧
      mapFind? (mulConstantOp a c).gates ("_" ++ natRepr ((copyCircuit a).new_gate_id + 2)) =
        some (Gate.Prod (copyCircuit a).output_gate ("_" ++ natRepr ((copyCircuit a).new_gate_id + 1))) ∧
      (∀ n, n ≠ "_" ++ natRepr ((copyCircuit a).new_gate_id + 1) →
        n ≠ "_" ++ natRepr ((copyCircuit a).new_gate_id + 2) →
        mapFind? (mulConstantOp a c).gates n = mapFind? (copyCircuit a).gates n)) := by
  have e2 : (copyCircuit a).new_gate_id + 1 + 1 = (copyCircuit a).new_gate_id + 2 := by omega
  have hm1 : ((copyCircuit a).new_gate_id + 2) ⊔ ((copyCircuit a).new_gate_id + 1) =
      (copyCircuit a).new_gate_id + 2 := by omega
  have hne21 : ¬ (("_" ++ natRepr ((copyCircuit a).new_gate_id + 2) : String) =
      ("_" ++ natRepr ((copyCircuit a).new_gate_id + 1))) :=
    freshName_inj _ _ (by omega)
  have hne12 : ¬ (("_" ++ natRepr ((copyCircuit a).new_gate_id + 1) : String) =
      ("_" ++ natRepr ((copyCircuit a).new_gate_id + 2))) :=
    freshName_inj _ _ (by omega)
  constructor
  · intro g hf
    refine ⟨findFirstConstant_mem _ _ _ hf, ?_⟩
    simp only [addConstantOp, mulConstantOp, hf, getNewGateName, addGateNV_named,
      freshName_ne_empty, ne_eq, not_false_eq_true, ensure_fresh, max_self, setOutput]
    refine ⟨trivial, ?_, ?_, trivial, ?_, ?_⟩
    · rw [mapFind?_insert, if_pos rfl]
    · intro n hn
      rw [mapFind?_insert, if_neg hn]
    · rw [mapFind?_insert, if_pos rfl]
    · intro n hn
      rw [mapFind?_insert, if_neg hn]
  · intro hf
    simp only [addConstantOp, mulConstantOp, hf, getNewGateName, addGateNV_named,
      freshName_ne_empty, ne_eq, not_false_eq_true, ensure_fresh, max_self, e2, hm1,
      setOutput]
    refine ⟨trivial, ?_, ?_, ?_, trivial, ?_, ?_, ?_⟩
    · rw [mapFind?_insert, if_neg hne12, mapFind?_insert, if_pos rfl]
    · rw [mapFind?_insert, if_pos rfl]
    · intro n hn1 hn2
      rw [mapFind?_insert, if_neg hn2, mapFind?_insert, if_neg hn1]
    · rw [mapFind?_insert, if_neg hne12, mapFind?_insert, if_pos rfl]
    · rw [mapFind?_insert, if_pos rfl]
    · intro n hn1 hn2
      rw [mapFind?_insert, if_neg hn2, mapFind?_insert, if_neg hn1]

theorem C9_scalar_constant_reuse_witness :
    findFirstConstant (copyCircuit (ConstantCircuit 2 0)).gates 2 = some "c" ∧
    ("c", Gate.Constant 2) ∈ (copyCircuit (ConstantCircuit 2 0)).gates ∧
    (addConstantOp (ConstantCircuit 2 0) 2).output_gate =
      "_" ++ natRepr ((copyCircuit (ConstantCircuit 2 0)).new_gate_id + 1) :=
  ⟨by decide,
    ((C9_scalar_constant_reuse (ConstantCircuit 2 0) 2).1 "c" (by decide)).1,
    ((C9_scalar_constant_reuse (ConstantCircuit 2 0) 2).1 "c" (by decide)).2.1⟩

theorem cseInner_change (cond : String → String → Bool) (a : String) :
    ∀ (L : List String) (nn : SMap String) (ch : Bool) (b : String),
      mapFind? (cseInner cond a L (nn, ch)).1 b ≠ mapFind? nn b → cond a b = true := by
  intro L
  induction L with
  | nil =>
    intro nn ch b h
    exact absurd rfl h
  | cons b0 rest ih =>
    intro nn ch b h
    unfold cseInner at h
    by_cases hP : (mapFind? nn b0).isSome ∧ cond a b0 = true
    · rw [if_pos hP] at h
      cases hta : mapFind? nn a with
      | none =>
        rw [hta] at h
        exact ih nn ch b h
      | some tgt =>
        rw [hta] at h
        dsimp only at h
        by_cases hb : b = b0
        · subst hb
          exact hP.2
        · apply ih (mapInsert nn b0 tgt) true b
          rw [mapFind?_insert, if_neg hb]
          exact h
    · rw [if_neg hP] at h
      exact ih nn ch b h

theorem csePhase_change (cond : String → String → Bool) :
    ∀ (L : List String) (nn : SMap String) (ch : Bool) (b : String),
      mapFind? (csePhase cond L (nn, ch)).1 b ≠ mapFind? nn b →
      ∃ a ∈ L, cond a b = true := by
  intro L
  induction L with
  | nil =>
    intro nn ch b h
    exact absurd rfl h
  | cons a rest ih =>
    intro nn ch b h
    unfold csePhase at h
    by_cases ha : (mapFind? nn a).isSome = true
    · rw [if_pos ha] at h
      cases hInner : cseInner cond a rest (nn, ch) with
      | mk nn1 ch1 =>
        rw [hInner] at h
        by_cases hb1 : mapFind? nn1 b = mapFind? nn b
        · have hne : mapFind? (csePhase cond rest (nn1, ch1)).1 b ≠ mapFind? nn1 b := by
            rw [hb1]
            exact h
          obtain ⟨a1, ha1, hc1⟩ := ih nn1 ch1 b hne
          exact ⟨a1, List.mem_cons_of_mem _ ha1, hc1⟩
        · refine ⟨a, List.mem_cons_self _ _, ?_⟩
          apply cseInner_change cond a rest nn ch b
          rw [hInner]
          exact hb1
    · rw [if_neg ha] at h
      obtain ⟨a1, ha1, hc1⟩ := ih nn ch b h
      exact ⟨a1, List.mem_cons_of_mem _ ha1, hc1⟩

/-- C7: in common-subexpression elimination, addition and product gates
merge exactly on identical `(x, y)` inputs, integration gates additionally
require initial values that are both present and equal; a merge pass only
rewrites the surviving-name table for `b` when some candidate `a` of the
pass satisfies the merge condition with `b`; and the name order used to
pick survivors ranks user-defined names (not starting with `_`) strictly
before generated ones. -/
theorem C7_cse_merge_conditions (c : GPAC) :
    (∀ a b, condAdd c a b = true ↔ ∃ x y,
      mapFind? c.gates a = some (Gate.Add x y) ∧ mapFind? c.gates b = some (Gate.Add x y)) ∧
    (∀ a b, condProd c a b = true ↔ ∃ x y,
      mapFind? c.gates a = some (Gate.Prod x y) ∧ mapFind? c.gates b = some (Gate.Prod x y)) ∧
    (∀ a b, condInt c a b = true ↔ ∃ x y v,
      mapFind? c.gates a = some (Gate.Int x y) ∧ mapFind? c.gates b = some (Gate.Int x y) ∧
      mapFind? c.values a = some v ∧ mapFind? c.values b = some v) ∧
    (∀ (cond : String → String → Bool) (L : List String) (nn : SMap String) (ch : Bool)
      (b : String),
      mapFind? (csePhase cond L (nn, ch)).1 b ≠ mapFind? nn b → ∃ a ∈ L, cond a b = true) ∧
    (∀ x y : String, x.length ≠ 0 → y.length ≠ 0 →
      x.data.head? ≠ some '_' → y.data.head? = some '_' →
      preferUserDefinedNames x y = true ∧ preferUserDefinedNames y x = false) := by
  refine ⟨?_, ?_, ?_, fun cond L nn ch b h => csePhase_change cond L nn ch b h, ?_⟩
  · intro a b
    constructor
    · intro h
      unfold condAdd at h
      split at h
      all_goals try exact Bool.noConfusion h
      rename_i x1 y1 x2 y2 ha hb
      simp only [decide_eq_true_eq] at h
      exact ⟨x1, y1, ha, by rw [hb, h.1, h.2]⟩
    · rintro ⟨x, y, ha, hb⟩
      unfold condAdd
      rw [ha, hb]
      simp
  · intro a b
    constructor
    · intro h
      unfold condProd at h
      split at h
      all_goals try exact Bool.noConfusion h
      rename_i x1 y1 x2 y2 ha hb
      simp only [decide_eq_true_eq] at h
      exact ⟨x1, y1, ha, by rw [hb, h.1, h.2]⟩
    · rintro ⟨x, y, ha, hb⟩
      unfold condProd
      rw [ha, hb]
      simp
  · intro a b
    constructor
    · intro h
      unfold condInt at h
      split at h
      all_goals try exact Bool.noConfusion h
      rename_i x1 y1 x2 y2 ha hb
      simp only [Bool.and_eq_true, beq_iff_eq] at h
      obtain ⟨⟨hx, hy⟩, hm⟩ := h
      split at hm
      all_goals try exact Bool.noConfusion hm
      rename_i v1 v2 hva hvb
      rw [beq_iff_eq] at hm
      exact ⟨x1, y1, v1, ha, by rw [hb, hx, hy], hva, by rw [hvb, hm]⟩
    · rintro ⟨x, y, v, ha, hb, hva, hvb⟩
      unfold condInt
      rw [ha, hb, hva, hvb]
      simp
  · intro x y hx hy hxh hyh
    constructor
    · unfold preferUserDefinedNames
      rw [if_neg hy, if_neg hx, if_pos ⟨hxh, hyh⟩]
    · unfold preferUserDefinedNames
      rw [if_neg hx, if_neg hy, if_neg (fun hc => hc.1 hyh), if_pos ⟨hyh, hxh⟩]

theorem C7_cse_merge_conditions_witness :
    condInt exC7 "i1" "i2" = true ∧ condAdd exC7 "i1" "i2" = false ∧
    preferUserDefinedNames "exp" "_1" = true ∧ preferUserDefinedNames "_1" "exp" = false :=
  ⟨((C7_cse_merge_conditions exC7).2.2.1 "i1" "i2").mpr
      ⟨"x", "t", 3, by decide, by decide, by decide, by decide⟩,
    by decide,
    ((C7_cse_merge_conditions exC7).2.2.2.2 "exp" "_1" (by decide) (by decide) (by decide)
      (by decide)).1,
    ((C7_cse_merge_conditions exC7).2.2.2.2 "exp" "_1" (by decide) (by decide) (by decide)
      (by decide)).2⟩

theorem setInitValue_name (c : GPAC) (g : String) (q : ℚ) :
    (setInitValue c g q).circuit_name = c.circuit_name := by
  unfold setInitValue
  split
  · rfl
  · rfl

theorem ensure_name (c : GPAC) (name : String) :
    (ensureNewGateIdLargeEnough c name).circuit_name = c.circuit_name := by
  simp only [ensureNewGateIdLargeEnough]
  repeat' split
  all_goals rfl

theorem addGateNV_name_fst (c : GPAC) (m : String) (g : Gate) :
    ((addGateNV c m g).1).circuit_name = c.circuit_name := by
  by_cases hm : m = ""
  · subst hm
    rw [addGateNV_fresh]
  · rw [addGateNV_named c m g hm]
    exact ensure_name _ _

theorem copyIntoStep_name (src acc : GPAC) (m : String) :
    (copyIntoStep src acc m).circuit_name = acc.circuit_name := by
  unfold copyIntoStep
  cases hg : mapFind? src.gates m with
  | none =>
    dsimp only
    split
    · rw [setInitValue_name]
    · rfl
  | some g =>
    dsimp only
    split
    · rw [setInitValue_name, addGateNV_name_fst]
    · rw [addGateNV_name_fst]

theorem copyInto_name (c src : GPAC) : (copyInto c src).circuit_name = c.circuit_name := by
  unfold copyInto
  suffices h : ∀ (L : List (String × Gate)) (acc : GPAC),
      (L.foldl (fun a p => copyIntoStep src a p.1) acc).circuit_name = acc.circuit_name from
    h _ _
  intro L
  induction L with
  | nil => intro acc; rfl
  | cons p rest ih =>
    intro acc
    rw [List.foldl_cons, ih, copyIntoStep_name]

theorem assignCircuit_gates_eq (tgt src : GPAC) :
    (assignCircuit tgt src).gates =
      (copyInto {tgt with gates := ([] : SMap Gate),
                          new_gate_id := max tgt.new_gate_id src.new_gate_id} src).gates := by
  simp only [assignCircuit]
  split
  · rfl
  · split
    · rfl
    · rfl

theorem assignCircuit_gates_find (tgt src : GPAC) (hcons : mapConsistent src.gates = true)
    (hne : ∀ p ∈ src.gates, p.1 ≠ "") (n : String) :
    mapFind? (assignCircuit tgt src).gates n = mapFind? src.gates n := by
  rw [assignCircuit_gates_eq]
  unfold copyInto
  by_cases hn : ∃ q ∈ src.gates, q.1 = n
  · obtain ⟨q, hq, hqn⟩ := hn
    have hfind : mapFind? src.gates q.1 = some q.2 := mapConsistent_find hcons hq
    rw [hqn] at hfind
    rw [copyInto_fold_gates_mem src src.gates _ n q.2 hne ⟨q, hq, hqn⟩ hfind, hfind]
  · have h2 : ∀ p ∈ src.gates, p.1 ≠ n := fun p hp hpn => hn ⟨p, hp, hpn⟩
    rw [copyInto_fold_gates_other src src.gates _ n hne h2]
    have hnone : mapFind? src.gates n = none := by
      apply mapFind?_eq_none_of_not_mem_keys
      intro hmem
      obtain ⟨p, hp, hpn⟩ := List.mem_map.mp hmem
      exact hn ⟨p, hp, hpn⟩
    rw [hnone]
    rfl

/-- C10 counterexample: copying a non-block circuit whose name is empty
keeps the empty name (no underscore is appended), and assignment does not
clear the target's old initial values — a stale value survives under a name
that is no longer a gate of the copy. -/
theorem C10_counterexample :
    (copyCircuit (mkGPAC "" true false 0)).circuit_name = "" ∧
    mapFind? (assignCircuit exTgt (ConstantCircuit 2 0)).values "z" = some 5 ∧
    mapContains (assignCircuit exTgt (ConstantCircuit 2 0)).gates "z" = false := by decide

/-- C10 (amended): a copy always has `finalized = false` and takes the
source's output gate, validation and block flags, the same gate under every
name and the same initial value on every integration gate; the copy's name
is the source's name plus `_` for a *named* non-block source, the source's
name for a block source, and stays empty for an unnamed non-block source.
Assignment rebuilds the gates the same way (its stale-state behaviour is
the counterexample's). -/
theorem C10_copy_semantics (c : GPAC) (hcons : mapConsistent c.gates = true)
    (hne : ∀ p ∈ c.gates, p.1 ≠ "") :
    (copyCircuit c).finalized = false ∧
    (copyCircuit c).output_gate = c.output_gate ∧
    (copyCircuit c).validation = c.validation ∧
    (copyCircuit c).block = c.block ∧
    (∀ n, mapFind? (copyCircuit c).gates n = mapFind? c.gates n) ∧
    (∀ n x y, mapFind? c.gates n = some (Gate.Int x y) →
      mapFind? (copyCircuit c).values n = mapFind? c.values n) ∧
    (¬ c.block ∧ c.circuit_name ≠ "" → (copyCircuit c).circuit_name = c.circuit_name ++ "_") ∧
    (c.block = true → (copyCircuit c).circuit_name = c.circuit_name) ∧
    (¬ c.block ∧ c.circuit_name = "" → (copyCircuit c).circuit_name = "") ∧
    (∀ tgt : GPAC, (assignCircuit tgt c).finalized = false ∧
      (assignCircuit tgt c).output_gate = c.output_gate ∧
      (∀ n, mapFind? (assignCircuit tgt c).gates n = mapFind? c.gates n)) := by
  refine ⟨rfl, rfl, rfl, rfl, copyCircuit_gates_find c hcons hne,
    fun n x y hg => copyCircuit_values_find c hne n x y hg, ?_, ?_, ?_,
    fun tgt => ⟨rfl, rfl, assignCircuit_gates_find tgt c hcons hne⟩⟩
  · intro hcond
    simp only [copyCircuit]
    rw [if_pos hcond]
  · intro hblock
    simp only [copyCircuit]
    rw [if_neg (fun hc => hc.1 (by simp [hblock])), if_pos hblock]
  · intro hcond
    simp only [copyCircuit]
    rw [if_neg (fun hc => hc.2 hcond.2), if_neg (by simpa using hcond.1)]
    rw [copyInto_name]

theorem C10_copy_semantics_witness :
    mapConsistent exC7.gates = true ∧
    (copyCircuit exC7).finalized = false ∧
    (copyCircuit exC7).circuit_name = exC7.circuit_name ++ "_" :=
  ⟨by decide,
    (C10_copy_semantics exC7 (by decide) (by decide)).1,
    (C10_copy_semantics exC7 (by decide) (by decide)).2.2.2.2.2.2.1 (by decide)⟩

end GPAClib
